import Mathlib

/-!
Verification development for the transitland-atlas French NAP reconciliation
script (`scripts/debug/scrap-french-nap.py`).

The script's core logic is embedded shallowly:

* Python/JSON values are modelled by `JVal` (no floats or booleans occur in
  the reconciliation-relevant data, so those constructors are omitted);
  Python strings are modelled as `List Char`.
* Python dicts are insertion-ordered association lists; `assocSet` models
  `d[k] = v` (replace in place or append), `assocUpdate` models `d.update(u)`,
  `assocFind` models `d.get(k)`.
* Code that can raise (`feed['id']`, `feed['urls']` on the probe path) is
  modelled in the `Option` monad.
* `requests.head` outcomes are an explicit probe function returning
  `Except Unit HeadResponse`; raising is the `.error` case.
-/

/-- Shorthand turning a string literal into the `List Char` representation
used for Python strings throughout this development. -/
def S (s : String) : List Char := s.data

/-- JSON-ish values as manipulated by the script. -/
inductive JVal where
  | null : JVal
  | str (s : List Char) : JVal
  | num (n : Int) : JVal
  | arr (xs : List JVal) : JVal
  | obj (fs : List (List Char × JVal)) : JVal

mutual

/-- Structural equality on `JVal` (Python `==` on these values). -/
def jeq : JVal → JVal → Bool
  | .null, .null => true
  | .str a, .str b => a == b
  | .num a, .num b => a == b
  | .arr a, .arr b => jeqArr a b
  | .obj a, .obj b => jeqObj a b
  | _, _ => false

/-- Elementwise equality of JSON sequences. -/
def jeqArr : List JVal → List JVal → Bool
  | [], [] => true
  | a :: as, b :: bs => jeq a b && jeqArr as bs
  | _, _ => false

/-- Entrywise equality of JSON mappings (order-sensitive, as serialized). -/
def jeqObj : List (List Char × JVal) → List (List Char × JVal) → Bool
  | [], [] => true
  | (k, v) :: as, (k', v') :: bs => k == k' && jeq v v' && jeqObj as bs
  | _, _ => false

end

theorem jeq_iff_eq_aux :
    ∀ (n : Nat) (a b : JVal), sizeOf a ≤ n → (jeq a b = true ↔ a = b) := by
  intro n
  induction n with
  | zero =>
    intro a b h
    cases a <;> simp_all
  | succ m ih =>
    intro a b h
    cases a with
    | null => cases b <;> simp [jeq]
    | str s => cases b <;> simp [jeq]
    | num v => cases b <;> simp [jeq]
    | arr xs =>
      cases b with
      | arr ys =>
        simp only [jeq, JVal.arr.injEq]
        have hxs : sizeOf xs ≤ m := by simp at h; omega
        clear h
        induction xs generalizing ys with
        | nil => cases ys <;> simp [jeqArr]
        | cons x xs ihx =>
          cases ys with
          | nil => simp [jeqArr]
          | cons y ys =>
            have h1 : sizeOf x ≤ m := by simp at hxs; omega
            have h2 : sizeOf xs ≤ m := by simp at hxs; omega
            simp [jeqArr, ih x y h1, ihx ys h2]
      | null => simp [jeq]
      | str s => simp [jeq]
      | num v => simp [jeq]
      | obj fs => simp [jeq]
    | obj xs =>
      cases b with
      | obj ys =>
        simp only [jeq, JVal.obj.injEq]
        have hxs : sizeOf xs ≤ m := by simp at h; omega
        clear h
        induction xs generalizing ys with
        | nil => cases ys <;> simp [jeqObj]
        | cons x xs ihx =>
          cases ys with
          | nil => simp [jeqObj]
          | cons y ys =>
            obtain ⟨k, v⟩ := x
            obtain ⟨k', v'⟩ := y
            have h1 : sizeOf v ≤ m := by simp at hxs; omega
            have h2 : sizeOf xs ≤ m := by simp at hxs; omega
            simp [jeqObj, ih v v' h1, ihx ys h2, and_assoc]
      | null => simp [jeq]
      | str s => simp [jeq]
      | num v => simp [jeq]
      | arr zs => simp [jeq]

theorem jeq_iff_eq (a b : JVal) : jeq a b = true ↔ a = b :=
  jeq_iff_eq_aux (sizeOf a) a b le_rfl

instance : DecidableEq JVal := fun a b =>
  decidable_of_iff (jeq a b = true) (jeq_iff_eq a b)

/-- Python truthiness for the modelled values. -/
def truthy : JVal → Bool
  | .null => false
  | .str s => !s.isEmpty
  | .num n => !(n == 0)
  | .arr xs => !xs.isEmpty
  | .obj fs => !fs.isEmpty

/-- Truthiness of a `dict.get` result (`None` when the key is absent). -/
def truthyO : Option JVal → Bool
  | none => false
  | some v => truthy v

/-- Python `d.get(k)` on an insertion-ordered mapping (generic in the value
type, used both for JSON objects and for typed lookup tables). -/
def assocFind {α : Type} (k : List Char) : List (List Char × α) → Option α
  | [] => none
  | (k', v) :: rest => if k' == k then some v else assocFind k rest

/-- Python `d[k] = v`: replace the value in place if the key is present,
otherwise append the new pair (insertion order preserved). -/
def assocSet (k : List Char) (v : JVal) : List (List Char × JVal) → List (List Char × JVal)
  | [] => [(k, v)]
  | (k', v') :: rest => if k' == k then (k', v) :: rest else (k', v') :: assocSet k v rest

/-- Python `base.update(upd)`. -/
def assocUpdate (base upd : List (List Char × JVal)) : List (List Char × JVal) :=
  upd.foldl (fun acc kv => assocSet kv.1 kv.2 acc) base

/-- `record.get(k)` on a JSON value (objects only; anything else has no keys). -/
def jget (k : List Char) : JVal → Option JVal
  | .obj fs => assocFind k fs
  | _ => none

/-- `record[k] = v` on a JSON object (identity on non-objects, which never
occurs for the records built here). -/
def jset (k : List Char) (v : JVal) : JVal → JVal
  | .obj fs => .obj (assocSet k v fs)
  | w => w

/-- The membership test of `clean_empty_values` for dict values:
`v in (None, "", [], {}, "unknown")` (line 280 of the script). -/
def isEmptyDictVal (v : JVal) : Bool :=
  jeq v .null || jeq v (.str []) || jeq v (.arr []) || jeq v (.obj []) ||
    jeq v (.str (S "unknown"))

/-- The membership test of `clean_empty_values` for list items:
`item in (None, "", [], {})` (line 286 of the script; note the literal
"unknown" is NOT in this tuple). -/
def isEmptyListVal (v : JVal) : Bool :=
  jeq v .null || jeq v (.str []) || jeq v (.arr []) || jeq v (.obj [])

mutual

/-- `clean_empty_values` (lines 274-288): dict comprehensions test the
original value `v` for emptiness and recursively clean the kept values;
list comprehensions likewise. -/
def clean_empty_values : JVal → JVal
  | .obj fs => .obj (cleanObjEntries fs)
  | .arr xs => .arr (cleanArrItems xs)
  | v => v

/-- The dict comprehension of `clean_empty_values`. -/
def cleanObjEntries : List (List Char × JVal) → List (List Char × JVal)
  | [] => []
  | (k, v) :: rest =>
    if isEmptyDictVal v then cleanObjEntries rest
    else (k, clean_empty_values v) :: cleanObjEntries rest

/-- The list comprehension of `clean_empty_values`. -/
def cleanArrItems : List JVal → List JVal
  | [] => []
  | v :: rest =>
    if isEmptyListVal v then cleanArrItems rest
    else clean_empty_values v :: cleanArrItems rest

end

/-! ### Identifier normalizer (lines 304-323 of `create_feed_record`) -/

/-- `slug.lower()`. -/
def lowerChars (l : List Char) : List Char := l.map Char.toLower

/-- `s.replace(a, b)` for single characters. -/
def replaceChar (a b : Char) (l : List Char) : List Char :=
  l.map fun c => if c = a then b else c

/-- The fixpoint of the loop `while '~~' in s: s = s.replace('~~', '~')`
(lines 314-315): every maximal run of tildes collapses to a single tilde,
all other characters and their order are untouched. The loop halves each
run per iteration, so its fixpoint is exactly this single pass. -/
def squeezeTildes : List Char → List Char
  | [] => []
  | [c] => [c]
  | c1 :: c2 :: rest =>
    if c1 = '~' && c2 = '~' then squeezeTildes (c2 :: rest)
    else c1 :: squeezeTildes (c2 :: rest)

/-- Drop leading tildes (half of `s.strip('~')`). -/
def lstripTildes (l : List Char) : List Char := l.dropWhile (fun c => c = '~')

/-- Drop trailing tildes (the other half of `s.strip('~')`). -/
def rstripTildes : List Char → List Char
  | [] => []
  | c :: rest =>
    match rstripTildes rest with
    | [] => if c = '~' then [] else [c]
    | r => c :: r

/-- `s.strip('~')` (line 316). -/
def stripTildes (l : List Char) : List Char := rstripTildes (lstripTildes l)

/-- The accepted regional suffixes of line 319, in source order. -/
def regionalSuffixes : List (List Char) := [S "~fr", S "~france", S "~reunion"]

/-- `any(name_component.endswith(suffix) for suffix in [...])` (line 319). -/
def endsWithRegionalSuffix (l : List Char) : Bool :=
  regionalSuffixes.any fun s => s.isSuffixOf l

/-- The name-component computation of `create_feed_record`, lines 305-320:
lower-case, replace `-` and `_` by `~`, collapse tilde runs, strip outer
tildes, and append `~fr` unless an accepted regional suffix is already
present. -/
def name_component_of_slug (slug : List Char) : List Char :=
  let s0 := lowerChars slug
  let s1 := replaceChar '-' '~' s0
  let s2 := replaceChar '_' '~' s1
  let s3 := squeezeTildes s2
  let s4 := stripTildes s3
  if endsWithRegionalSuffix s4 then s4 else s4 ++ S "~fr"

/-- `feed_id = f"f-{name_component}"` (line 323). -/
def feed_id_of_slug (slug : List Char) : List Char :=
  S "f-" ++ name_component_of_slug slug

/-! ### License mapper (lines 357-435 of `create_feed_record`) -/

/-- `s.strip()` (whitespace strip, as applied to the license key). -/
def stripWhitespace (l : List Char) : List Char :=
  ((l.dropWhile Char.isWhitespace).reverse.dropWhile Char.isWhitespace).reverse

/-- The `license_map` literal of lines 366-381; `none` models the explicit
`None` entry for "notspecified". -/
def license_map : List (List Char × Option (List Char)) :=
  [ (S "odc-odbl", some (S "ODbL-1.0")),
    (S "lov2", some (S "LO-2.0")),
    (S "fr-lo", some (S "LO-2.0")),
    (S "licence-ouverte", some (S "LO-2.0")),
    (S "other-pd", some (S "CC0-1.0")),
    (S "mobility-licence", some (S "LO-2.0")),
    (S "notspecified", none) ]

/-- The license fields added for `odc-odbl` (lines 391-397), in source order. -/
def odcOdblFields : List (List Char × JVal) :=
  [ (S "share_alike_optional", .str (S "no")),
    (S "attribution_text", .str (S "Â© OpenStreetMap contributors")),
    (S "redistribution_allowed", .str (S "yes")),
    (S "commercial_use_allowed", .str (S "yes")),
    (S "create_derived_product", .str (S "yes")) ]

/-- The license fields added for the French open-license family (lines
399-405), in source order. -/
def frenchOpenLicenseFields : List (List Char × JVal) :=
  [ (S "attribution_text", .str (S "Licence Ouverte / Open License")),
    (S "redistribution_allowed", .str (S "yes")),
    (S "commercial_use_allowed", .str (S "yes")),
    (S "create_derived_product", .str (S "yes")),
    (S "share_alike_optional", .str (S "yes")) ]

/-- The license fields added for the public-domain family (lines 407-413). -/
def publicDomainFields : List (List Char × JVal) :=
  [ (S "attribution_text", .str []),
    (S "redistribution_allowed", .str (S "yes")),
    (S "commercial_use_allowed", .str (S "yes")),
    (S "create_derived_product", .str (S "yes")),
    (S "share_alike_optional", .str (S "yes")) ]

/-- The permissive-unknown template of lines 419-425 / 429-435:
`attribution_text = dataset.get("title", "")`, every permission field
"unknown". -/
def unknownLicenseFields (titleDefaulted : JVal) : List (List Char × JVal) :=
  [ (S "attribution_text", titleDefaulted),
    (S "redistribution_allowed", .str (S "unknown")),
    (S "commercial_use_allowed", .str (S "unknown")),
    (S "create_derived_product", .str (S "unknown")),
    (S "share_alike_optional", .str (S "unknown")) ]

/-- The license-dict construction of `create_feed_record`, lines 357-435:
start from `{}`, add `url` when `page_url` is truthy (lines 358-359), then
run the `licence` branch (lines 362-435). `licence = none` models an absent
or `None` key; `lic = []` is the present-but-empty string, which is falsy. -/
def build_license (page_url : JVal) (licence : Option (List Char))
    (titleDefaulted : JVal) : List (List Char × JVal) :=
  let l0 : List (List Char × JVal) :=
    if truthy page_url then [(S "url", page_url)] else []
  match licence with
  | none => l0
  | some lic =>
    if lic.isEmpty then l0
    else
      let key := stripWhitespace (lowerChars lic)
      match assocFind key license_map with
      | some (some spdx) =>
        let l1 := assocSet (S "spdx_identifier") (.str spdx) l0
        if key == S "odc-odbl" then assocUpdate l1 odcOdblFields
        else if key == S "lov2" || key == S "fr-lo" || key == S "licence-ouverte"
            || key == S "mobility-licence" then
          assocUpdate l1 frenchOpenLicenseFields
        else if key == S "other-pd" then assocUpdate l1 publicDomainFields
        else l1
      | some none => assocUpdate l0 (unknownLicenseFields titleDefaulted)
      | none => assocUpdate l0 (unknownLicenseFields titleDefaulted)

/-! ### Record merger (`create_feed_record`, lines 290-491) -/

/-- One entry of `dataset["resources"]`: `format` models
`r.get("format", "")`; `url` models `r["url"]`, assumed present (a missing
`url` raises before any claim-relevant behavior). -/
structure Resource where
  format : List Char
  url : JVal

/-- A catalog dataset as read by `create_feed_record`. `title` and
`page_url` are `dict.get` results where `.null` models an absent key or an
explicit `None` (both behave identically under truthiness and under the
final stripping pass). `licence` is a string when present: the script calls
`.lower().strip()` on it, so only string values avoid a crash. -/
structure Dataset where
  slug : List Char
  id : JVal
  title : JVal
  page_url : JVal
  licence : Option (List Char)
  resources : List Resource

/-- A prior directory record for one identifier, as consulted via
`existing_feeds.get(feed_id)` in lines 437-488, typed by the fields the
script reads. `license` and `tags` model `.get(k, {})`-style mapping reads
(`[]` is absent or empty, both falsy); the other fields model plain
`.get(k)` reads. -/
structure PriorFeed where
  feed_versions : Option JVal
  feed_state : Option JVal
  name : Option JVal
  license : List (List Char × JVal)
  languages : Option JVal
  tags : List (List Char × JVal)

/-- `dataset.get("title", "")` as used for license attribution text. -/
def titleDefaulted (d : Dataset) : JVal :=
  match d.title with
  | .null => .str []
  | v => v

/-- The static-GTFS resource test of lines 293-298:
`r.get("format", "").upper() == "GTFS" and not ...endswith("-RT")`. -/
def is_static_gtfs (r : Resource) : Bool :=
  (r.format.map Char.toUpper == S "GTFS") &&
    !((S "-RT").isSuffixOf (r.format.map Char.toUpper))

/-- The `realtime_urls` literal of lines 346-354; every value is falsy, so
the update on line 355 adds nothing. -/
def realtime_url_fields : List (List Char × JVal) :=
  [ (S "static_planned", .arr []),
    (S "static_historic", .arr []),
    (S "realtime_alerts", .str []),
    (S "realtime_trip_updates", .str []),
    (S "realtime_vehicle_positions", .str []),
    (S "gbfs_auto_discovery", .str []),
    (S "mds_provider", .str []) ]

/-- The base feed record of lines 332-359 (dict literal, realtime-url
update, and the in-place license construction folded into its entry). -/
def base_feed_record (d : Dataset) (res : Resource) : JVal :=
  let urls := assocUpdate [(S "static_current", res.url)]
    (realtime_url_fields.filter fun kv => truthy kv.2)
  .obj
    [ (S "id", .str (feed_id_of_slug d.slug)),
      (S "spec", .str (S "gtfs")),
      (S "urls", .obj urls),
      (S "license", .obj (build_license d.page_url d.licence (titleDefaulted d))),
      (S "name", d.title),
      (S "tags", .obj [(S "fr_nap_dataset_id", d.id)]) ]

/-- The spdx identifier of the record's current license,
`feed_record['license'].get('spdx_identifier')`. -/
def recordLicenseSpdx (r : JVal) : Option JVal :=
  match jget (S "license") r with
  | some (.obj fs) => assocFind (S "spdx_identifier") fs
  | _ => none

/-- The preservation steps of lines 439-479 (the `if existing_feed:`
branch): feed_versions, feed_state, name, license, languages. The URL
comparison of lines 444-453 only logs and is omitted. -/
def apply_existing_feed (ex : PriorFeed) (r : JVal) : JVal :=
  let r1 := if truthyO ex.feed_versions
    then jset (S "feed_versions") (ex.feed_versions.getD .null) r else r
  let r2 := if truthyO ex.feed_state
    then jset (S "feed_state") (ex.feed_state.getD .null) r1 else r1
  let r3 := if !truthyO (jget (S "name") r2) && truthyO ex.name
    then jset (S "name") (ex.name.getD .null) r2 else r2
  let r4 := if truthyO (assocFind (S "spdx_identifier") ex.license)
      && !truthyO (recordLicenseSpdx r3)
    then jset (S "license") (.obj ex.license) r3 else r3
  let r5 := if truthyO ex.languages
    then jset (S "languages") (ex.languages.getD .null) r4 else r4
  r5

/-- Proof-support restatement of `apply_existing_feed` on an object record:
the name and license conditions are evaluated against the record's own
entries directly, which is equivalent because the preceding steps never
write the keys those conditions read (proved in
`apply_existing_feed_eq_explicit`). -/
def apply_existing_feed_explicit (ex : PriorFeed) (fs : List (List Char × JVal)) : JVal :=
  let r1 := if truthyO ex.feed_versions
    then jset (S "feed_versions") (ex.feed_versions.getD .null) (.obj fs) else .obj fs
  let r2 := if truthyO ex.feed_state
    then jset (S "feed_state") (ex.feed_state.getD .null) r1 else r1
  let r3 := if !truthyO (assocFind (S "name") fs) && truthyO ex.name
    then jset (S "name") (ex.name.getD .null) r2 else r2
  let r4 := if truthyO (assocFind (S "spdx_identifier") ex.license)
      && !truthyO (recordLicenseSpdx (.obj fs))
    then jset (S "license") (.obj ex.license) r3 else r3
  if truthyO ex.languages
    then jset (S "languages") (ex.languages.getD .null) r4 else r4

/-- The tag-merge step of lines 481-488: when the prior record has truthy
tags, overlay the record's freshly computed tags on a copy of the prior
tags and store the result. (The fall-through arm for a non-object tags
entry cannot occur for records built here.) -/
def apply_existing_tags (exO : Option PriorFeed) (r : JVal) : JVal :=
  match exO with
  | none => r
  | some ex =>
    if ex.tags.isEmpty then r
    else
      match jget (S "tags") r with
      | some (.obj ts) => jset (S "tags") (.obj (assocUpdate ex.tags ts)) r
      | _ => r

/-- `create_feed_record` up to (but excluding) the final
`clean_empty_values` call: resource selection, identifier, base record,
prior-record preservation, tag merge. `none` models the early `return None`
when no static GTFS resource exists. -/
def create_feed_record_raw (d : Dataset)
    (existing_feeds : List (List Char × PriorFeed)) : Option JVal :=
  match d.resources.find? is_static_gtfs with
  | none => none
  | some res =>
    let exO := assocFind (feed_id_of_slug d.slug) existing_feeds
    let r0 := base_feed_record d res
    let r1 := match exO with
      | some ex => apply_existing_feed ex r0
      | none => r0
    some (apply_existing_tags exO r1)

/-- `create_feed_record` (lines 290-491), including the final stripping
pass of line 491. -/
def create_feed_record (d : Dataset)
    (existing_feeds : List (List Char × PriorFeed)) : Option JVal :=
  (create_feed_record_raw d existing_feeds).map clean_empty_values

/-! ### Change detector and registry writer (`write_dmfr_file`, lines
493-606, and the pruning call of `main`, lines 955-959) -/

/-- The three outcomes of the per-feed filter in `write_dmfr_file`:
`skip` is the `skipped_feeds` path, `keep` the ordinary
`feeds_to_write.append`, and `keepOnError` the `except`-handler append of
lines 544-547. -/
inductive Decision where
  | keep : Decision
  | skip : Decision
  | keepOnError : Decision
deriving DecidableEq

/-- The observable part of a successful `requests.head` response. -/
structure HeadResponse where
  status_code : Int
  content_length : Option (List Char)

/-- One value of the Transitland lookup used by `write_dmfr_file`:
`feed_version` models `existing_feed_data.get('feed_version', {})`
(`[]` is absent or empty, both falsy). The `feed` entry read on line 510
is never used afterwards and is omitted. -/
structure ApiFeedEntry where
  feed_version : List (List Char × JVal)

/-- Python `int(s)` on a header string: optional surrounding whitespace,
optional sign, decimal digits. (Python additionally accepts underscore
digit separators; no claim depends on that.) -/
def pyInt (s : List Char) : Option Int :=
  let t := stripWhitespace s
  let sd : Int × List Char :=
    match t with
    | '+' :: rest => (1, rest)
    | '-' :: rest => (-1, rest)
    | _ => (1, t)
  if sd.2.isEmpty || !sd.2.all Char.isDigit then none
  else some (sd.1 * sd.2.foldl (fun acc c => 10 * acc + ((c.toNat : Int) - ('0'.toNat : Int))) 0)

/-- The per-feed decision of `write_dmfr_file`, lines 506-553. The probe
models `requests.head` on the current URL: `.error` is a raised exception
(caught by the handler on line 544), `.ok` a returned response. A
non-integer `content-length` makes `int()` raise inside the `try`, hence
`keepOnError`. The size comparison `int(content_length) ==
feed_version.get('size_bytes')` is false whenever `size_bytes` is absent
or not a number. -/
def feed_change_decision (feed : JVal) (entryO : Option ApiFeedEntry)
    (probe : List Char → Except Unit HeadResponse) : Decision :=
  match entryO with
  | none => .keep
  | some entry =>
    let fv := entry.feed_version
    if !fv.isEmpty && truthyO (assocFind (S "sha1") fv) then
      match jget (S "urls") feed with
      | some (.obj us) =>
        match assocFind (S "static_current") us with
        | some cur =>
          if truthy cur then
            match cur with
            | .str u =>
              match probe u with
              | .error _ => .keepOnError
              | .ok resp =>
                if resp.status_code ≠ 200 then .keep
                else
                  match resp.content_length with
                  | some cl =>
                    if cl.isEmpty then .keep
                    else
                      match pyInt cl with
                      | some n =>
                        if assocFind (S "size_bytes") fv == some (.num n)
                        then .skip else .keep
                      | none => .keepOnError
                  | none => .keep
            | _ => .keepOnError
          else .keep
        | none => .keep
      | some _ => .keepOnError
      | none => .keepOnError
    else .keep

/-- Lookup in the Transitland feed mapping by the value of `feed['id']`
(the mapping is keyed by identifier strings; a non-string id is never a
key). -/
def apiLookup (i : JVal) : List (List Char × ApiFeedEntry) → Option ApiFeedEntry
  | [] => none
  | (k, e) :: rest => match i with
    | .str s => if k == s then some e else apiLookup i rest
    | _ => none

/-- The filter loop of `write_dmfr_file`, lines 504-553, preserving input
order; `none` models the uncaught `KeyError` of `feed['id']` on line 505. -/
def filter_unchanged_feeds (new_feeds : List JVal)
    (existing_feeds : List (List Char × ApiFeedEntry))
    (probe : List Char → Except Unit HeadResponse) : Option (List JVal) :=
  match new_feeds with
  | [] => some []
  | feed :: rest => do
    let i ← jget (S "id") feed
    let rest' ← filter_unchanged_feeds rest existing_feeds probe
    match feed_change_decision feed (apiLookup i existing_feeds) probe with
    | .skip => pure rest'
    | _ => pure (feed :: rest')

/-- The document-merge-and-clean part of `write_dmfr_file`, lines 568-599:
when an existing document is readable, preserve its feeds whose
`feed.get('id')` is not among the incoming ids and append the incoming
feeds; a missing or corrupt document falls back to the incoming feeds
alone; every written feed is passed through `clean_empty_values`
(line 595). `none` models the uncaught `KeyError` of `feed['id']` on
line 575. -/
def merge_dmfr_feeds (existing_doc : Option (List JVal))
    (feeds_to_write : List JVal) : Option (List JVal) :=
  match existing_doc with
  | none => some (feeds_to_write.map clean_empty_values)
  | some doc_feeds => do
    let new_feed_ids ← feeds_to_write.mapM (jget (S "id"))
    let preserved := doc_feeds.filter fun f =>
      !(new_feed_ids.any fun i => jeq i ((jget (S "id") f).getD .null))
    pure ((preserved ++ feeds_to_write).map clean_empty_values)

/-- `write_dmfr_file` (lines 493-606): the change-detection filter followed
by the document merge and clean. File-system and CSV side effects are
omitted; the returned list is the `feeds` array of the written document. -/
def write_dmfr_file (existing_doc : Option (List JVal)) (new_feeds : List JVal)
    (existing_feeds : List (List Char × ApiFeedEntry))
    (probe : List Char → Except Unit HeadResponse) : Option (List JVal) := do
  let feeds_to_write ← filter_unchanged_feeds new_feeds existing_feeds probe
  merge_dmfr_feeds existing_doc feeds_to_write

/-- The list comprehension of `main`, line 959:
`[f for f in new_feeds if f['id'] not in unchanged_ids]` (the unchanged-id
set holds identifier strings, so a non-string id is never a member). -/
def remove_unchanged (new_feeds : List JVal)
    (unchanged_ids : List (List Char)) : Option (List JVal) :=
  match new_feeds with
  | [] => some []
  | f :: rest => do
    let i ← jget (S "id") f
    let rest' ← remove_unchanged rest unchanged_ids
    let isUnchanged := match i with
      | .str s => unchanged_ids.any fun u => u == s
      | _ => false
    pure (if isUnchanged then rest' else f :: rest')

/-- The write-then-prune sequence of `main`, lines 939-959: the first
`write_dmfr_file` call produces the on-disk document; after the
confirmation stage reports `unchanged_ids`, `write_dmfr_file` is invoked
again on the incoming feeds with those identifiers removed, reading the
document written by the first call. -/
def main_write_and_prune (doc0 : Option (List JVal)) (new_feeds : List JVal)
    (existing_feeds : List (List Char × ApiFeedEntry))
    (probe : List Char → Except Unit HeadResponse)
    (unchanged_ids : List (List Char)) : Option (List JVal) := do
  let doc1 ← write_dmfr_file doc0 new_feeds existing_feeds probe
  let pruned ← remove_unchanged new_feeds unchanged_ids
  write_dmfr_file (some doc1) pruned existing_feeds probe

/-! ### Observation predicates used only in theorem statements -/

/-- Lexicographic strict order on identifier strings (code-point order),
used to state sortedness. -/
def strLtChars : List Char → List Char → Bool
  | [], [] => false
  | [], _ :: _ => true
  | _ :: _, [] => false
  | a :: as, b :: bs => if a < b then true else if b < a then false else strLtChars as bs

/-- The identifier string of a feed record (empty for a missing or
non-string id). -/
def feedIdStr (f : JVal) : List Char :=
  match jget (S "id") f with
  | some (.str s) => s
  | _ => []

/-- Whether a feed list is sorted by identifier (non-decreasing). -/
def sorted_by_id : List JVal → Bool
  | [] => true
  | [_] => true
  | a :: b :: rest => !(strLtChars (feedIdStr b) (feedIdStr a)) && sorted_by_id (b :: rest)

/-- Two adjacent tildes somewhere in the string. -/
def hasDoubleTilde : List Char → Bool
  | [] => false
  | [_] => false
  | a :: b :: rest => (a = '~' && b = '~') || hasDoubleTilde (b :: rest)

/-- Ends with an accepted regional suffix, and the part before that suffix
does not itself end with an accepted suffix. -/
def endsWithExactlyOneRegionalSuffix (l : List Char) : Bool :=
  regionalSuffixes.any fun s =>
    s.isSuffixOf l && !(endsWithRegionalSuffix (l.take (l.length - s.length)))

mutual

/-- Does the structure contain, at any depth, a mapping entry or sequence
item whose value is one of the claim's empty/placeholder values (absent,
empty string, empty sequence, empty mapping, or the literal "unknown")? -/
def hasPlaceholderMember : JVal → Bool
  | .obj fs => hasPlaceholderObj fs
  | .arr xs => hasPlaceholderArr xs
  | _ => false

/-- Placeholder search over mapping entries. -/
def hasPlaceholderObj : List (List Char × JVal) → Bool
  | [] => false
  | (_, v) :: rest =>
    isEmptyDictVal v || hasPlaceholderMember v || hasPlaceholderObj rest

/-- Placeholder search over sequence items. -/
def hasPlaceholderArr : List JVal → Bool
  | [] => false
  | v :: rest =>
    isEmptyDictVal v || hasPlaceholderMember v || hasPlaceholderArr rest

end

/-- A dict value the cleaning pass is guaranteed to never leave behind:
`None`, the empty string, or the literal "unknown" (atoms are returned
unchanged by cleaning, so they can never be re-created). -/
def isBadDictAtom (v : JVal) : Bool :=
  jeq v .null || jeq v (.str []) || jeq v (.str (S "unknown"))

/-- A list item the cleaning pass is guaranteed to never leave behind:
`None` or the empty string. -/
def isBadListAtom (v : JVal) : Bool :=
  jeq v .null || jeq v (.str [])

mutual

/-- No mapping entry holds `None`/`""`/"unknown" and no sequence item holds
`None`/`""`, at any depth. -/
def noBadAtoms : JVal → Bool
  | .obj fs => noBadAtomsObj fs
  | .arr xs => noBadAtomsArr xs
  | _ => true

/-- Entrywise bad-atom check. -/
def noBadAtomsObj : List (List Char × JVal) → Bool
  | [] => true
  | (_, v) :: rest => !isBadDictAtom v && noBadAtoms v && noBadAtomsObj rest

/-- Itemwise bad-atom check. -/
def noBadAtomsArr : List JVal → Bool
  | [] => true
  | v :: rest => !isBadListAtom v && noBadAtoms v && noBadAtomsArr rest

end


/-! ## General lemmas about the association-list and cleaning helpers -/

theorem assocFind_assocSet_self (k : List Char) (v : JVal) (fs : List (List Char × JVal)) :
    assocFind k (assocSet k v fs) = some v := by
  induction fs with
  | nil => simp [assocSet, assocFind]
  | cons kv rest ih =>
    obtain ⟨k', v'⟩ := kv
    by_cases h : k' = k
    · subst h
      simp [assocSet, assocFind]
    · simp only [assocSet, assocFind, beq_iff_eq, if_neg h]
      exact ih

theorem assocFind_assocSet_ne (k k' : List Char) (v : JVal) (fs : List (List Char × JVal))
    (h : k ≠ k') : assocFind k (assocSet k' v fs) = assocFind k fs := by
  induction fs with
  | nil =>
    simp only [assocSet, assocFind, beq_iff_eq]
    rw [if_neg (fun hh => h hh.symm)]
  | cons kv rest ih =>
    obtain ⟨k'', v''⟩ := kv
    by_cases h2 : k'' = k'
    · subst h2
      have h3 : ¬(k'' = k) := fun hh => h hh.symm
      simp only [assocSet, beq_iff_eq, if_pos rfl, assocFind, if_neg h3]
    · simp only [assocSet, beq_iff_eq, if_neg h2, assocFind]
      by_cases h3 : k'' = k
      · simp [h3]
      · simp [h3, ih]

theorem jget_jset_self (k : List Char) (v : JVal) (fs : List (List Char × JVal)) :
    jget k (jset k v (.obj fs)) = some v := by
  simp [jget, jset, assocFind_assocSet_self]

theorem jget_jset_ne (k k' : List Char) (v : JVal) (r : JVal) (h : k ≠ k') :
    jget k (jset k' v r) = jget k r := by
  cases r <;> simp [jget, jset]
  exact assocFind_assocSet_ne k k' v _ h

theorem jset_obj_shape (k : List Char) (v : JVal) (fs : List (List Char × JVal)) :
    ∃ gs, jset k v (.obj fs) = .obj gs :=
  ⟨assocSet k v fs, rfl⟩

/-- Cleaning an atom keeps it unchanged; in particular a value that is not
in the removal tuple cannot clean to a bad atom. -/
theorem isBadDictAtom_clean (v : JVal) (h : isEmptyDictVal v = false) :
    isBadDictAtom (clean_empty_values v) = false := by
  cases v <;>
    simp_all [clean_empty_values, isEmptyDictVal, isBadDictAtom, jeq]

theorem isBadListAtom_clean (v : JVal) (h : isEmptyListVal v = false) :
    isBadListAtom (clean_empty_values v) = false := by
  cases v <;>
    simp_all [clean_empty_values, isEmptyListVal, isBadListAtom, isBadDictAtom, jeq]

theorem clean_noBadAtoms_aux :
    ∀ (n : Nat) (v : JVal), sizeOf v ≤ n → noBadAtoms (clean_empty_values v) = true := by
  intro n
  induction n with
  | zero =>
    intro v h
    cases v <;> simp_all
  | succ m ih =>
    intro v h
    cases v with
    | null => simp [clean_empty_values, noBadAtoms]
    | str s => simp [clean_empty_values, noBadAtoms]
    | num k => simp [clean_empty_values, noBadAtoms]
    | arr xs =>
      simp only [clean_empty_values, noBadAtoms]
      have hxs : sizeOf xs ≤ m := by simp at h; omega
      clear h
      induction xs with
      | nil => simp [cleanArrItems, noBadAtomsArr]
      | cons x rest ihx =>
        have h1 : sizeOf x ≤ m := by simp at hxs; omega
        have h2 : sizeOf rest ≤ m := by simp at hxs; omega
        simp only [cleanArrItems]
        split
        · exact ihx h2
        · rename_i hemp
          simp only [noBadAtomsArr, Bool.and_eq_true]
          exact ⟨⟨by simp [isBadListAtom_clean x (by simpa using hemp)], ih x h1⟩, ihx h2⟩
    | obj fs =>
      simp only [clean_empty_values, noBadAtoms]
      have hfs : sizeOf fs ≤ m := by simp at h; omega
      clear h
      induction fs with
      | nil => simp [cleanObjEntries, noBadAtomsObj]
      | cons kv rest ihx =>
        obtain ⟨k, v⟩ := kv
        have h1 : sizeOf v ≤ m := by simp at hfs; omega
        have h2 : sizeOf rest ≤ m := by simp at hfs; omega
        simp only [cleanObjEntries]
        split
        · exact ihx h2
        · rename_i hemp
          simp only [noBadAtomsObj, Bool.and_eq_true]
          exact ⟨⟨by simp [isBadDictAtom_clean v (by simpa using hemp)], ih v h1⟩, ihx h2⟩

theorem clean_noBadAtoms (v : JVal) : noBadAtoms (clean_empty_values v) = true :=
  clean_noBadAtoms_aux (sizeOf v) v le_rfl

/-! ## Claim C9: the stripping pass -/

/-- Claim C9, counterexample. The stripping pass does NOT guarantee the
absence of every empty/placeholder value at any depth: for a catalog entry
whose `page_url` is the literal "unknown" and whose prior record carries a
feed-versions list containing "unknown", the returned record still
contains an empty mapping (the license, whose only entry was stripped
after the license value itself had already been kept) and the literal
"unknown" inside a sequence (list items are only tested against
`(None, "", [], {})`). -/
theorem clean_does_not_strip_at_depth_counterexample :
    hasPlaceholderMember
      ((create_feed_record
        ⟨S "acme", .str (S "DS9"), .null, .str (S "unknown"), none,
          [⟨S "GTFS", .str (S "http://x/a.zip")⟩]⟩
        [(S "f-acme~fr", ⟨some (.arr [.str (S "unknown")]), none, none, [], none, []⟩)]).getD
        .null) = true ∧
    jget (S "license")
      ((create_feed_record
        ⟨S "acme", .str (S "DS9"), .null, .str (S "unknown"), none,
          [⟨S "GTFS", .str (S "http://x/a.zip")⟩]⟩
        [(S "f-acme~fr", ⟨some (.arr [.str (S "unknown")]), none, none, [], none, []⟩)]).getD
        .null) = some (.obj []) ∧
    jget (S "feed_versions")
      ((create_feed_record
        ⟨S "acme", .str (S "DS9"), .null, .str (S "unknown"), none,
          [⟨S "GTFS", .str (S "http://x/a.zip")⟩]⟩
        [(S "f-acme~fr", ⟨some (.arr [.str (S "unknown")]), none, none, [], none, []⟩)]).getD
        .null) = some (.arr [.str (S "unknown")]) := by
  decide

/-- Claim C9, amended. The stripping pass removes every mapping entry whose
value is absent, an empty string, or the literal "unknown", and every
sequence item that is absent or an empty string, at all depths of the
output; but sequences may retain the "unknown" token, and mappings or
sequences that become empty only through the cleaning of their own
contents are retained (membership in the removal tuple is judged on the
value before it is cleaned). -/
theorem clean_empty_values_no_bad_atoms (v : JVal) :
    noBadAtoms (clean_empty_values v) = true :=
  clean_noBadAtoms_aux (sizeOf v) v le_rfl

/-! ## Claim C7: normalizer idempotence on an already-suffixed slug -/

/-- Claim C7. The name-component normalizer is idempotent once suffixed:
"acme~fr" already ends with an accepted regional suffix, is left unchanged,
and re-applying the normalizer yields the same identifier. -/
theorem name_component_idempotent_on_suffixed :
    name_component_of_slug (name_component_of_slug (S "acme~fr")) =
      name_component_of_slug (S "acme~fr") ∧
    name_component_of_slug (S "acme~fr") = S "acme~fr" ∧
    endsWithRegionalSuffix (S "acme~fr") = true := by
  decide

/-! ## Character-level lemmas for the normalizer -/

theorem char_toNat_ofNat_valid (n : Nat) (h : n.isValidChar) : (Char.ofNat n).toNat = n := by
  rw [Char.ofNat, dif_pos h]
  rfl

theorem char_toLower_toNat (c : Char) :
    (Char.toLower c).toNat =
      if Char.toNat c ≥ 65 ∧ Char.toNat c ≤ 90 then Char.toNat c + 32 else Char.toNat c := by
  rw [Char.toLower]
  split
  · rename_i h
    exact char_toNat_ofNat_valid _ (Or.inl (by omega))
  · rfl

theorem uint32_le_iff_toNat {a b : UInt32} : a ≤ b ↔ a.toNat ≤ b.toNat := by
  rw [UInt32.le_def, BitVec.le_def]
  exact Iff.rfl

theorem char_isUpper_iff (c : Char) : c.isUpper = true ↔ 65 ≤ c.toNat ∧ c.toNat ≤ 90 := by
  simp only [Char.isUpper, Bool.and_eq_true, decide_eq_true_eq, uint32_le_iff_toNat]
  norm_num [Char.toNat]

theorem char_eq_iff_toNat (c d : Char) : c = d ↔ c.toNat = d.toNat :=
  ⟨fun h => h ▸ rfl, fun h => Char.ext (UInt32.ext h)⟩

theorem toLower_not_upper (c : Char) : (Char.toLower c).isUpper = false := by
  rw [Bool.eq_false_iff]
  intro h
  have h2 := (char_isUpper_iff _).mp h
  rw [char_toLower_toNat] at h2
  split at h2 <;> omega

theorem toLower_of_upper_ne (c : Char) (h : c.isUpper = true) :
    Char.toLower c ≠ '~' ∧ Char.toLower c ≠ '-' ∧ Char.toLower c ≠ '_' := by
  have h1 := (char_isUpper_iff c).mp h
  have h2 := char_toLower_toNat c
  rw [if_pos (by omega)] at h2
  refine ⟨fun he => ?_, fun he => ?_, fun he => ?_⟩ <;>
    [ have h3 := (char_eq_iff_toNat _ '~').mp he;
      have h3 := (char_eq_iff_toNat _ '-').mp he;
      have h3 := (char_eq_iff_toNat _ '_').mp he ] <;>
    [ have h4 : Char.toNat '~' = 126 := rfl;
      have h4 : Char.toNat '-' = 45 := rfl;
      have h4 : Char.toNat '_' = 95 := rfl ] <;>
    omega

/-! ## Lemmas about the tilde-collapsing and stripping passes -/

theorem squeezeTildes_two_tildes (rest : List Char) :
    squeezeTildes ('~' :: '~' :: rest) = squeezeTildes ('~' :: rest) := by
  simp [squeezeTildes]

theorem squeezeTildes_cons_of_ne (c d : Char) (rest : List Char) (h : ¬(c = '~' ∧ d = '~')) :
    squeezeTildes (c :: d :: rest) = c :: squeezeTildes (d :: rest) := by
  rw [squeezeTildes]
  rw [if_neg (by simpa using h)]

theorem squeezeTildes_head (l : List Char) :
    ∀ c, (squeezeTildes (c :: l)).head? = some c := by
  induction l with
  | nil => intro c; simp [squeezeTildes]
  | cons d rest ih =>
    intro c
    by_cases h : c = '~' ∧ d = '~'
    · obtain ⟨h1, h2⟩ := h
      subst h1; subst h2
      rw [squeezeTildes_two_tildes]
      exact ih '~'
    · rw [squeezeTildes_cons_of_ne c d rest h]
      rfl

theorem hasDoubleTilde_squeezeTildes (l : List Char) :
    ∀ c, hasDoubleTilde (squeezeTildes (c :: l)) = false := by
  induction l with
  | nil => intro c; simp [squeezeTildes, hasDoubleTilde]
  | cons d rest ih =>
    intro c
    by_cases h : c = '~' ∧ d = '~'
    · obtain ⟨h1, h2⟩ := h
      subst h1; subst h2
      rw [squeezeTildes_two_tildes]
      exact ih '~'
    · rw [squeezeTildes_cons_of_ne c d rest h]
      cases hsq : squeezeTildes (d :: rest) with
      | nil =>
        have h5 := squeezeTildes_head rest d
        rw [hsq] at h5
        simp at h5
      | cons e t =>
        have he : e = d := by
          have h5 := squeezeTildes_head rest d
          rw [hsq] at h5
          simpa using h5
        have h2 : hasDoubleTilde (e :: t) = false := by
          rw [← hsq]
          exact ih d
        simp only [hasDoubleTilde, h2, Bool.or_false]
        rw [he]
        simp only [Bool.and_eq_false_iff, decide_eq_false_iff_not]
        exact not_and_or.mp h

theorem mem_squeezeTildes (l : List Char) : ∀ c ∈ squeezeTildes l, c ∈ l := by
  induction l with
  | nil => simp [squeezeTildes]
  | cons d rest ih =>
    intro c hc
    cases rest with
    | nil => simpa [squeezeTildes] using hc
    | cons e t =>
      by_cases h : d = '~' ∧ e = '~'
      · obtain ⟨h1, h2⟩ := h
        subst h1; subst h2
        rw [squeezeTildes_two_tildes] at hc
        exact List.mem_cons_of_mem _ (ih c hc)
      · rw [squeezeTildes_cons_of_ne d e t h] at hc
        rcases List.mem_cons.mp hc with h3 | h3
        · exact h3 ▸ List.mem_cons_self d _
        · exact List.mem_cons_of_mem _ (ih c h3)

theorem mem_squeezeTildes_of_ne (l : List Char) :
    ∀ c ∈ l, c ≠ '~' → c ∈ squeezeTildes l := by
  induction l with
  | nil => simp
  | cons d rest ih =>
    intro c hc hne
    cases rest with
    | nil =>
      simpa [squeezeTildes] using hc
    | cons e t =>
      by_cases h : d = '~' ∧ e = '~'
      · obtain ⟨h1, h2⟩ := h
        subst h1; subst h2
        rw [squeezeTildes_two_tildes]
        rcases List.mem_cons.mp hc with h3 | h3
        · exact absurd h3 hne
        · exact ih c h3 hne
      · rw [squeezeTildes_cons_of_ne d e t h]
        rcases List.mem_cons.mp hc with h3 | h3
        · exact h3 ▸ List.mem_cons_self d _
        · exact List.mem_cons_of_mem _ (ih c h3 hne)

theorem mem_rstripTildes (l : List Char) : ∀ c ∈ rstripTildes l, c ∈ l := by
  induction l with
  | nil => simp [rstripTildes]
  | cons d rest ih =>
    intro c hc
    rw [rstripTildes] at hc
    cases hr : rstripTildes rest with
    | nil =>
      rw [hr] at hc
      by_cases hd : d = '~'
      · simp [hd] at hc
      · rw [if_neg hd] at hc
        have h4 : c = d := by simpa using hc
        exact h4 ▸ List.mem_cons_self d _
    | cons e t =>
      rw [hr] at hc
      rcases List.mem_cons.mp hc with h3 | h3
      · exact h3 ▸ List.mem_cons_self d _
      · exact List.mem_cons_of_mem _ (ih c (hr ▸ h3))

theorem mem_rstripTildes_of_ne (l : List Char) :
    ∀ c ∈ l, c ≠ '~' → c ∈ rstripTildes l := by
  induction l with
  | nil => simp
  | cons d rest ih =>
    intro c hc hne
    rw [rstripTildes]
    rcases List.mem_cons.mp hc with h3 | h3
    · subst h3
      cases hr : rstripTildes rest with
      | nil => simp [if_neg hne]
      | cons e t => exact List.mem_cons_self c _
    · have h4 := ih c h3 hne
      cases hr : rstripTildes rest with
      | nil => rw [hr] at h4; simp at h4
      | cons e t =>
        rw [hr] at h4
        exact List.mem_cons_of_mem _ h4

theorem rstripTildes_getLast_ne (l : List Char) : (rstripTildes l).getLast? ≠ some '~' := by
  induction l with
  | nil => simp [rstripTildes]
  | cons d rest ih =>
    rw [rstripTildes]
    cases hr : rstripTildes rest with
    | nil =>
      by_cases hd : d = '~'
      · simp [hd]
      · simp [if_neg hd]
        exact fun h => hd h
    | cons e t =>
      rw [List.getLast?_cons_cons]
      rw [hr] at ih
      exact ih

theorem rstripTildes_head (l : List Char) :
    rstripTildes l = [] ∨ (rstripTildes l).head? = l.head? := by
  cases l with
  | nil => left; rfl
  | cons d rest =>
    rw [rstripTildes]
    cases rstripTildes rest with
    | nil =>
      by_cases hd : d = '~'
      · left; simp [hd]
      · right; simp [if_neg hd]
    | cons e t => right; rfl

/-- `rstripTildes` only removes elements from the end. -/
theorem rstripTildes_append (l : List Char) : ∃ t, rstripTildes l ++ t = l := by
  induction l with
  | nil => exact ⟨[], rfl⟩
  | cons d rest ih =>
    obtain ⟨t, ht⟩ := ih
    rw [rstripTildes]
    cases hr : rstripTildes rest with
    | nil =>
      by_cases hd : d = '~'
      · refine ⟨d :: rest, by simp [hd]⟩
      · refine ⟨t, ?_⟩
        rw [if_neg hd]
        rw [hr] at ht
        simpa using ht
    | cons e t' =>
      refine ⟨t, ?_⟩
      rw [hr] at ht
      simpa using ht

theorem hasDoubleTilde_of_append_left (a b : List Char) (h : hasDoubleTilde a = true) :
    hasDoubleTilde (a ++ b) = true := by
  induction a with
  | nil => simp [hasDoubleTilde] at h
  | cons d rest ih =>
    cases rest with
    | nil => simp [hasDoubleTilde] at h
    | cons e t =>
      rw [hasDoubleTilde] at h
      rcases Bool.or_eq_true_iff.mp h with h2 | h2
      · show hasDoubleTilde (d :: e :: (t ++ b)) = true
        rw [hasDoubleTilde, h2]
        rfl
      · show hasDoubleTilde (d :: e :: (t ++ b)) = true
        rw [hasDoubleTilde]
        have := ih h2
        simp only [List.cons_append] at this
        rw [this]
        simp

theorem hasDoubleTilde_of_append_right (a b : List Char) (h : hasDoubleTilde b = true) :
    hasDoubleTilde (a ++ b) = true := by
  induction a with
  | nil => simpa using h
  | cons d rest ih =>
    cases rest with
    | nil =>
      cases b with
      | nil => simp [hasDoubleTilde] at h
      | cons e bs =>
        show hasDoubleTilde (d :: e :: bs) = true
        rw [hasDoubleTilde, h]
        simp
    | cons r rs =>
      show hasDoubleTilde (d :: r :: (rs ++ b)) = true
      rw [hasDoubleTilde]
      have h2 := ih
      simp only [List.cons_append] at h2
      rw [h2]
      simp

theorem mem_stripTildes (l : List Char) : ∀ c ∈ stripTildes l, c ∈ l := by
  intro c hc
  have h1 := mem_rstripTildes _ c hc
  exact (List.dropWhile_sublist _).subset h1

theorem mem_lstripTildes_of_ne (l : List Char) :
    ∀ c ∈ l, c ≠ '~' → c ∈ lstripTildes l := by
  induction l with
  | nil => simp
  | cons d rest ih =>
    intro c hc hne
    rw [lstripTildes, List.dropWhile_cons]
    rcases List.mem_cons.mp hc with h3 | h3
    · subst h3
      rw [if_neg (by simpa using hne)]
      exact List.mem_cons_self c _
    · by_cases hd : d = '~'
      · rw [if_pos (by simpa using hd)]
        exact ih c h3 hne
      · rw [if_neg (by simpa using hd)]
        exact List.mem_cons_of_mem _ h3

theorem mem_stripTildes_of_ne (l : List Char) :
    ∀ c ∈ l, c ≠ '~' → c ∈ stripTildes l := by
  intro c hc hne
  exact mem_rstripTildes_of_ne _ c (mem_lstripTildes_of_ne l c hc hne) hne

theorem stripTildes_head_ne (l : List Char) : (stripTildes l).head? ≠ some '~' := by
  rw [stripTildes]
  rcases rstripTildes_head (lstripTildes l) with h | h
  · rw [h]
    simp
  · rw [h]
    intro hc
    have h2 := List.head?_dropWhile_not (fun c => c = '~') l
    rw [show lstripTildes l = l.dropWhile (fun c => c = '~') from rfl] at hc
    rw [hc] at h2
    simp at h2

theorem stripTildes_getLast_ne (l : List Char) : (stripTildes l).getLast? ≠ some '~' :=
  rstripTildes_getLast_ne _

theorem hasDoubleTilde_stripTildes (l : List Char) (h : hasDoubleTilde l = false) :
    hasDoubleTilde (stripTildes l) = false := by
  rw [stripTildes]
  have h1 : hasDoubleTilde (lstripTildes l) = false := by
    obtain ⟨t, ht⟩ := List.dropWhile_suffix (l := l) (fun c => c = '~')
    rw [Bool.eq_false_iff]
    intro h2
    have h3 := hasDoubleTilde_of_append_right t _ h2
    rw [show lstripTildes l = l.dropWhile (fun c => c = '~') from rfl, ht] at h3
    rw [h3] at h
    exact absurd h (by simp)
  obtain ⟨t, ht⟩ := rstripTildes_append (lstripTildes l)
  rw [Bool.eq_false_iff]
  intro h2
  have h3 := hasDoubleTilde_of_append_left _ t h2
  rw [ht] at h3
  rw [h3] at h1
  exact absurd h1 (by simp)

theorem hasDoubleTilde_append_fr (s : List Char) (h : hasDoubleTilde s = false)
    (hl : s.getLast? ≠ some '~') : hasDoubleTilde (s ++ S "~fr") = false := by
  induction s with
  | nil => decide
  | cons d rest ih =>
    cases rest with
    | nil =>
      have hd : d ≠ '~' := by
        intro hd
        exact hl (by simp [hd])
      show hasDoubleTilde (d :: '~' :: ['f', 'r']) = false
      rw [hasDoubleTilde]
      simp only [hasDoubleTilde, Bool.or_false]
      simp [hd]
    | cons e rs =>
      show hasDoubleTilde (d :: e :: (rs ++ S "~fr")) = false
      rw [hasDoubleTilde] at h ⊢
      rcases Bool.or_eq_false_iff.mp h with ⟨h1, h2⟩
      have h3 : (e :: rs).getLast? ≠ some '~' := by
        intro hc
        exact hl (by rw [List.getLast?_cons_cons]; exact hc)
      have h4 := ih h2 h3
      simp only [List.cons_append] at h4
      rw [h1, h4]
      rfl

theorem separator_normalized_not_upper (slug : List Char) :
    ∀ c ∈ replaceChar '_' '~' (replaceChar '-' '~' (lowerChars slug)), c.isUpper = false := by
  intro c hc
  rw [replaceChar, List.mem_map] at hc
  obtain ⟨b, hb, rfl⟩ := hc
  rw [replaceChar, List.mem_map] at hb
  obtain ⟨a, ha, rfl⟩ := hb
  rw [lowerChars, List.mem_map] at ha
  obtain ⟨x, hx, rfl⟩ := ha
  by_cases h1 : Char.toLower x = '-'
  · simp only [if_pos h1]
    decide
  · simp only [if_neg h1]
    by_cases h2 : Char.toLower x = '_'
    · simp only [if_pos h2]
      decide
    · simp only [if_neg h2]
      exact toLower_not_upper x

theorem upper_char_survives (slug : List Char) (c : Char) (hc : c ∈ slug)
    (hu : c.isUpper = true) :
    Char.toLower c ∈
      stripTildes (squeezeTildes (replaceChar '_' '~' (replaceChar '-' '~' (lowerChars slug)))) := by
  obtain ⟨hne, hnd, hnu⟩ := toLower_of_upper_ne c hu
  have h0 : Char.toLower c ∈ lowerChars slug := by
    rw [lowerChars, List.mem_map]
    exact ⟨c, hc, rfl⟩
  have h1 : Char.toLower c ∈ replaceChar '-' '~' (lowerChars slug) := by
    rw [replaceChar, List.mem_map]
    exact ⟨Char.toLower c, h0, by rw [if_neg hnd]⟩
  have h2 : Char.toLower c ∈ replaceChar '_' '~' (replaceChar '-' '~' (lowerChars slug)) := by
    rw [replaceChar, List.mem_map]
    exact ⟨Char.toLower c, h1, by rw [if_neg hnu]⟩
  exact mem_stripTildes_of_ne _ _ (mem_squeezeTildes_of_ne _ _ h2 hne) hne

/-! ## Claim C8: normalizer shape on mixed-case slugs -/

/-- Claim C8, counterexample. The slug "A-b_c~fr~fr" contains mixed case
and both separators, yet the normalizer's output "a~b~c~fr~fr" does not
end with exactly ONE regional suffix: the slug already ended with a
doubled suffix, and line 319 only prevents appending another one. -/
theorem name_component_double_suffix_counterexample :
    (S "A-b_c~fr~fr").any Char.isUpper = true ∧
    (S "A-b_c~fr~fr").any Char.isLower = true ∧
    '-' ∈ S "A-b_c~fr~fr" ∧
    '_' ∈ S "A-b_c~fr~fr" ∧
    name_component_of_slug (S "A-b_c~fr~fr") = S "a~b~c~fr~fr" ∧
    endsWithExactlyOneRegionalSuffix (name_component_of_slug (S "A-b_c~fr~fr")) = false := by
  decide

/-- Claim C8, amended. The normalizer is a pure total function; for every
slug containing an upper-case letter, a lower-case letter, a '-' and a '_',
the resulting name component contains no upper-case ASCII letter, has no
two consecutive separator characters, is non-empty with neither a leading
nor a trailing separator, and ends with an accepted regional suffix;
moreover, whenever the separator-normalized, stripped slug does not already
end with an accepted suffix, the default suffix is appended exactly once,
so the result then ends with exactly one regional suffix. (A slug that
already ends with a doubled suffix keeps it; appending never creates one.) -/
theorem name_component_shape (slug : List Char)
    (hu : ∃ c ∈ slug, c.isUpper = true)
    (hlo : ∃ c ∈ slug, c.isLower = true)
    (hhy : '-' ∈ slug) (hun : '_' ∈ slug) :
    (∀ c ∈ name_component_of_slug slug, c.isUpper = false) ∧
    hasDoubleTilde (name_component_of_slug slug) = false ∧
    name_component_of_slug slug ≠ [] ∧
    (name_component_of_slug slug).head? ≠ some '~' ∧
    (name_component_of_slug slug).getLast? ≠ some '~' ∧
    endsWithRegionalSuffix (name_component_of_slug slug) = true ∧
    (endsWithRegionalSuffix (stripTildes (squeezeTildes (replaceChar '_' '~'
        (replaceChar '-' '~' (lowerChars slug))))) = false →
      endsWithExactlyOneRegionalSuffix (name_component_of_slug slug) = true) := by
  obtain ⟨cu, hcu, hcuU⟩ := hu
  have hs4mem : ∀ c ∈ stripTildes (squeezeTildes (replaceChar '_' '~'
      (replaceChar '-' '~' (lowerChars slug)))), c.isUpper = false := by
    intro c hc
    exact separator_normalized_not_upper slug c
      (mem_squeezeTildes _ c (mem_stripTildes _ c hc))
  have hs4ne : stripTildes (squeezeTildes (replaceChar '_' '~'
      (replaceChar '-' '~' (lowerChars slug)))) ≠ [] := by
    intro h
    have := upper_char_survives slug cu hcu hcuU
    rw [h] at this
    exact absurd this (List.not_mem_nil _)
  have hs4nd : hasDoubleTilde (stripTildes (squeezeTildes (replaceChar '_' '~'
      (replaceChar '-' '~' (lowerChars slug))))) = false := by
    apply hasDoubleTilde_stripTildes
    cases hsq : replaceChar '_' '~' (replaceChar '-' '~' (lowerChars slug)) with
    | nil => simp [hsq, squeezeTildes, hasDoubleTilde]
    | cons a t => exact hasDoubleTilde_squeezeTildes t a
  have hs4hd := stripTildes_head_ne (squeezeTildes (replaceChar '_' '~'
      (replaceChar '-' '~' (lowerChars slug))))
  have hs4lt := stripTildes_getLast_ne (squeezeTildes (replaceChar '_' '~'
      (replaceChar '-' '~' (lowerChars slug))))
  have hr : name_component_of_slug slug =
      (if endsWithRegionalSuffix (stripTildes (squeezeTildes (replaceChar '_' '~'
          (replaceChar '-' '~' (lowerChars slug)))))
       then stripTildes (squeezeTildes (replaceChar '_' '~'
          (replaceChar '-' '~' (lowerChars slug))))
       else stripTildes (squeezeTildes (replaceChar '_' '~'
          (replaceChar '-' '~' (lowerChars slug)))) ++ S "~fr") := rfl
  by_cases hends : endsWithRegionalSuffix (stripTildes (squeezeTildes (replaceChar '_' '~'
      (replaceChar '-' '~' (lowerChars slug))))) = true
  · rw [hr, if_pos hends]
    refine ⟨hs4mem, hs4nd, hs4ne, hs4hd, hs4lt, hends, ?_⟩
    intro hcon
    rw [hends] at hcon
    exact absurd hcon (by simp)
  · rw [hr, if_neg hends]
    have hends' : endsWithRegionalSuffix (stripTildes (squeezeTildes (replaceChar '_' '~'
        (replaceChar '-' '~' (lowerChars slug))))) = false := by
      simpa using hends
    have h5 : (S "~fr").isSuffixOf (stripTildes (squeezeTildes (replaceChar '_' '~'
        (replaceChar '-' '~' (lowerChars slug)))) ++ S "~fr") = true := by
      rw [List.isSuffixOf_iff_suffix]
      exact List.suffix_append _ _
    refine ⟨?_, ?_, ?_, ?_, ?_, ?_, ?_⟩
    · intro c hc
      rcases List.mem_append.mp hc with h | h
      · exact hs4mem c h
      · have h3 : c ∈ ['~', 'f', 'r'] := h
        have h2 : c = '~' ∨ c = 'f' ∨ c = 'r' := by simpa using h3
        rcases h2 with rfl | rfl | rfl <;> decide
    · exact hasDoubleTilde_append_fr _ hs4nd hs4lt
    · intro hnil
      rcases List.append_eq_nil.mp hnil with ⟨h1, h2⟩
      exact absurd h1 hs4ne
    · cases h4 : stripTildes (squeezeTildes (replaceChar '_' '~'
          (replaceChar '-' '~' (lowerChars slug)))) with
      | nil => exact absurd h4 hs4ne
      | cons d t =>
        rw [List.cons_append, List.head?_cons]
        intro hc
        apply hs4hd
        rw [h4, List.head?_cons]
        exact hc
    · rw [List.getLast?_append]
      have h7 : (S "~fr").getLast? = some 'r' := rfl
      rw [h7]
      simp only [Option.or]
      decide
    · simp only [endsWithRegionalSuffix, regionalSuffixes, List.any_cons, List.any_nil]
      rw [h5]
      simp
    · intro _
      simp only [endsWithExactlyOneRegionalSuffix, regionalSuffixes,
        List.any_cons, List.any_nil]
      have h6 : List.take (List.length (stripTildes (squeezeTildes (replaceChar '_' '~'
            (replaceChar '-' '~' (lowerChars slug)))) ++ S "~fr") - List.length (S "~fr"))
          (stripTildes (squeezeTildes (replaceChar '_' '~'
            (replaceChar '-' '~' (lowerChars slug)))) ++ S "~fr")
          = stripTildes (squeezeTildes (replaceChar '_' '~'
            (replaceChar '-' '~' (lowerChars slug)))) := by
        apply List.take_left'
        rw [List.length_append]
        omega
      rw [h5, h6, hends']
      simp

/-- Witness for the amended claim C8 at the concrete slug "Ab-c_d". -/
theorem name_component_shape_witness :
    hasDoubleTilde (name_component_of_slug (S "Ab-c_d")) = false ∧
    name_component_of_slug (S "Ab-c_d") ≠ [] ∧
    (name_component_of_slug (S "Ab-c_d")).head? ≠ some '~' ∧
    (name_component_of_slug (S "Ab-c_d")).getLast? ≠ some '~' ∧
    endsWithRegionalSuffix (name_component_of_slug (S "Ab-c_d")) = true ∧
    endsWithExactlyOneRegionalSuffix (name_component_of_slug (S "Ab-c_d")) = true :=
  have h := name_component_shape (S "Ab-c_d") (by decide) (by decide) (by decide) (by decide)
  ⟨h.2.1, h.2.2.1, h.2.2.2.1, h.2.2.2.2.1, h.2.2.2.2.2.1, h.2.2.2.2.2.2 (by decide)⟩

/-! ## Claim C3: the first-stage change detector -/

theorem feed_version_not_empty_of_sha1 (entry : ApiFeedEntry)
    (hsha : truthyO (assocFind (S "sha1") entry.feed_version) = true) :
    entry.feed_version.isEmpty = false := by
  cases hfv : entry.feed_version with
  | nil =>
    rw [hfv] at hsha
    simp [assocFind, truthyO] at hsha
  | cons a t => rfl

/-- Evaluation of the change-detector on the probe path: once a prior entry
with a truthy sha1 and a non-empty current URL string are fixed, the
decision is determined by the probe outcome exactly as in lines 514-547. -/
theorem feed_change_decision_probe (feed : JVal) (entry : ApiFeedEntry)
    (probe : List Char → Except Unit HeadResponse)
    (us : List (List Char × JVal)) (u : List Char)
    (hsha : truthyO (assocFind (S "sha1") entry.feed_version) = true)
    (hurls : jget (S "urls") feed = some (.obj us))
    (hcur : assocFind (S "static_current") us = some (.str u))
    (hne : u ≠ []) :
    feed_change_decision feed (some entry) probe =
      match probe u with
      | .error _ => .keepOnError
      | .ok resp =>
        if resp.status_code ≠ 200 then .keep
        else
          match resp.content_length with
          | some cl =>
            if cl.isEmpty then .keep
            else
              match pyInt cl with
              | some n =>
                if assocFind (S "size_bytes") entry.feed_version == some (.num n)
                then .skip else .keep
              | none => .keepOnError
          | none => .keep := by
  have hfv := feed_version_not_empty_of_sha1 entry hsha
  have htr : truthy (.str u) = true := by simp [truthy, hne]
  rw [feed_change_decision]
  rw [hfv, hsha]
  simp only [Bool.not_false, Bool.and_self, if_true]
  rw [hurls]
  dsimp only
  rw [hcur]
  dsimp only
  rw [if_pos htr]

/-- Claim C3. The first-stage decision table of `write_dmfr_file`:
keep when there is no prior entry; keep when the prior entry has no truthy
content hash (the code keys the comparison on `sha1`); keepOnError when the
header probe raises; keep when the probe returns a non-200 status; skip
when the probe succeeds with status 200 and reports a content length whose
integer value equals the prior known `size_bytes`; keep when it differs or
when no content length is reported. A feed is therefore only ever dropped
from the write set by the successful size match. -/
theorem feed_change_decision_spec :
    (∀ feed probe, feed_change_decision feed none probe = .keep) ∧
    (∀ feed entry probe,
      truthyO (assocFind (S "sha1") entry.feed_version) = false →
      feed_change_decision feed (some entry) probe = .keep) ∧
    (∀ feed entry probe us u,
      truthyO (assocFind (S "sha1") entry.feed_version) = true →
      jget (S "urls") feed = some (.obj us) →
      assocFind (S "static_current") us = some (.str u) →
      u ≠ [] →
      probe u = .error () →
      feed_change_decision feed (some entry) probe = .keepOnError) ∧
    (∀ feed entry probe us u resp,
      truthyO (assocFind (S "sha1") entry.feed_version) = true →
      jget (S "urls") feed = some (.obj us) →
      assocFind (S "static_current") us = some (.str u) →
      u ≠ [] →
      probe u = .ok resp →
      resp.status_code ≠ 200 →
      feed_change_decision feed (some entry) probe = .keep) ∧
    (∀ feed entry probe us u resp cl n,
      truthyO (assocFind (S "sha1") entry.feed_version) = true →
      jget (S "urls") feed = some (.obj us) →
      assocFind (S "static_current") us = some (.str u) →
      u ≠ [] →
      probe u = .ok resp →
      resp.status_code = 200 →
      resp.content_length = some cl →
      cl ≠ [] →
      pyInt cl = some n →
      assocFind (S "size_bytes") entry.feed_version = some (.num n) →
      feed_change_decision feed (some entry) probe = .skip) ∧
    (∀ feed entry probe us u resp cl n,
      truthyO (assocFind (S "sha1") entry.feed_version) = true →
      jget (S "urls") feed = some (.obj us) →
      assocFind (S "static_current") us = some (.str u) →
      u ≠ [] →
      probe u = .ok resp →
      resp.status_code = 200 →
      resp.content_length = some cl →
      cl ≠ [] →
      pyInt cl = some n →
      assocFind (S "size_bytes") entry.feed_version ≠ some (.num n) →
      feed_change_decision feed (some entry) probe = .keep) ∧
    (∀ feed entry probe us u resp,
      truthyO (assocFind (S "sha1") entry.feed_version) = true →
      jget (S "urls") feed = some (.obj us) →
      assocFind (S "static_current") us = some (.str u) →
      u ≠ [] →
      probe u = .ok resp →
      resp.status_code = 200 →
      resp.content_length = none →
      feed_change_decision feed (some entry) probe = .keep) := by
  refine ⟨?_, ?_, ?_, ?_, ?_, ?_, ?_⟩
  · intro feed probe
    rfl
  · intro feed entry probe hsha
    rw [feed_change_decision]
    rw [hsha]
    simp
  · intro feed entry probe us u hsha hurls hcur hne herr
    rw [feed_change_decision_probe feed entry probe us u hsha hurls hcur hne, herr]
  · intro feed entry probe us u resp hsha hurls hcur hne hok hst
    rw [feed_change_decision_probe feed entry probe us u hsha hurls hcur hne, hok]
    simp [hst]
  · intro feed entry probe us u resp cl n hsha hurls hcur hne hok hst hcl hclne hint hsz
    rw [feed_change_decision_probe feed entry probe us u hsha hurls hcur hne, hok]
    dsimp only
    rw [if_neg (by simp [hst]), hcl]
    dsimp only
    rw [if_neg (by simpa using hclne), hint]
    dsimp only
    rw [if_pos (by simp [hsz])]
  · intro feed entry probe us u resp cl n hsha hurls hcur hne hok hst hcl hclne hint hsz
    rw [feed_change_decision_probe feed entry probe us u hsha hurls hcur hne, hok]
    dsimp only
    rw [if_neg (by simp [hst]), hcl]
    dsimp only
    rw [if_neg (by simpa using hclne), hint]
    dsimp only
    rw [if_neg (by simpa using hsz)]
  · intro feed entry probe us u resp hsha hurls hcur hne hok hst hcl
    rw [feed_change_decision_probe feed entry probe us u hsha hurls hcur hne, hok]
    dsimp only
    rw [if_neg (by simp [hst]), hcl]

/-- Witness for claim C3 at the spec's concrete numbers: prior size 1000
with reported content-length "1000" gives skip, "999" gives keep, a raised
probe gives keepOnError, and a missing prior entry gives keep. -/
theorem feed_change_decision_spec_witness :
    feed_change_decision
      (.obj [(S "id", .str (S "f-x")),
             (S "urls", .obj [(S "static_current", .str (S "http://u"))])])
      (some ⟨[(S "sha1", .str (S "abc")), (S "size_bytes", .num 1000)]⟩)
      (fun _ => .ok ⟨200, some (S "1000")⟩) = .skip ∧
    feed_change_decision
      (.obj [(S "id", .str (S "f-x")),
             (S "urls", .obj [(S "static_current", .str (S "http://u"))])])
      (some ⟨[(S "sha1", .str (S "abc")), (S "size_bytes", .num 1000)]⟩)
      (fun _ => .ok ⟨200, some (S "999")⟩) = .keep ∧
    feed_change_decision
      (.obj [(S "id", .str (S "f-x")),
             (S "urls", .obj [(S "static_current", .str (S "http://u"))])])
      (some ⟨[(S "sha1", .str (S "abc")), (S "size_bytes", .num 1000)]⟩)
      (fun _ => .error ()) = .keepOnError ∧
    feed_change_decision
      (.obj [(S "id", .str (S "f-x")),
             (S "urls", .obj [(S "static_current", .str (S "http://u"))])])
      none (fun _ => .error ()) = .keep :=
  ⟨feed_change_decision_spec.2.2.2.2.1 _ _ _
      [(S "static_current", .str (S "http://u"))] (S "http://u") _ (S "1000") 1000
      (by decide) (by decide) (by decide) (by decide) rfl rfl rfl (by decide)
      (by decide) (by decide),
   feed_change_decision_spec.2.2.2.2.2.1 _ _ _
      [(S "static_current", .str (S "http://u"))] (S "http://u") _ (S "999") 999
      (by decide) (by decide) (by decide) (by decide) rfl rfl rfl (by decide)
      (by decide) (by decide),
   feed_change_decision_spec.2.2.1 _ _ _
      [(S "static_current", .str (S "http://u"))] (S "http://u")
      (by decide) (by decide) (by decide) (by decide) rfl,
   feed_change_decision_spec.1 _ _⟩

/-! ## Claim C6: license mapping -/

theorem assocFind_url_part_none (k : List Char) (page_url : JVal) (hk : k ≠ S "url") :
    assocFind k (if truthy page_url then [(S "url", page_url)] else []) = none := by
  split
  · rw [assocFind, if_neg (by simpa using fun h => hk h.symm)]
    rfl
  · rfl

theorem build_license_unknown_code (code : List Char) (page_url titleDef : JVal)
    (hne : code ≠ [])
    (hmap : assocFind (stripWhitespace (lowerChars code)) license_map = none) :
    build_license page_url (some code) titleDef =
      assocUpdate (if truthy page_url then [(S "url", page_url)] else [])
        (unknownLicenseFields titleDef) := by
  rw [build_license]
  dsimp only
  rw [if_neg (by simpa using hne)]
  rw [hmap]

/-- Claim C6. The license mapping is a total function of the code string:
"odc-odbl" maps to a license with spdx_identifier "ODbL-1.0" and
redistribution_allowed "yes"; every non-empty code whose lower-cased,
stripped form is not in the fixed table (such as "unknown-code-xyz")
degrades to the permissive-unknown template: no spdx_identifier, all four
permission fields "unknown", and attribution_text equal to the entry's
display name. (The warning of line 427 only logs; nothing is raised.) -/
theorem build_license_spec :
    assocFind (S "spdx_identifier")
        (build_license .null (some (S "odc-odbl")) (.str (S "T")))
      = some (.str (S "ODbL-1.0")) ∧
    assocFind (S "redistribution_allowed")
        (build_license .null (some (S "odc-odbl")) (.str (S "T")))
      = some (.str (S "yes")) ∧
    (∀ (code : List Char) (page_url titleDef : JVal),
      code ≠ [] →
      assocFind (stripWhitespace (lowerChars code)) license_map = none →
      assocFind (S "spdx_identifier") (build_license page_url (some code) titleDef) = none ∧
      assocFind (S "attribution_text") (build_license page_url (some code) titleDef)
        = some titleDef ∧
      assocFind (S "redistribution_allowed") (build_license page_url (some code) titleDef)
        = some (.str (S "unknown")) ∧
      assocFind (S "commercial_use_allowed") (build_license page_url (some code) titleDef)
        = some (.str (S "unknown")) ∧
      assocFind (S "create_derived_product") (build_license page_url (some code) titleDef)
        = some (.str (S "unknown")) ∧
      assocFind (S "share_alike_optional") (build_license page_url (some code) titleDef)
        = some (.str (S "unknown"))) := by
  refine ⟨by decide, by decide, ?_⟩
  intro code page_url titleDef hne hmap
  rw [build_license_unknown_code code page_url titleDef hne hmap]
  simp only [assocUpdate, unknownLicenseFields, List.foldl]
  refine ⟨?_, ?_, ?_, ?_, ?_, ?_⟩
  · rw [assocFind_assocSet_ne _ _ _ _ (by decide), assocFind_assocSet_ne _ _ _ _ (by decide),
      assocFind_assocSet_ne _ _ _ _ (by decide), assocFind_assocSet_ne _ _ _ _ (by decide),
      assocFind_assocSet_ne _ _ _ _ (by decide)]
    exact assocFind_url_part_none _ page_url (by decide)
  · rw [assocFind_assocSet_ne _ _ _ _ (by decide), assocFind_assocSet_ne _ _ _ _ (by decide),
      assocFind_assocSet_ne _ _ _ _ (by decide), assocFind_assocSet_ne _ _ _ _ (by decide)]
    exact assocFind_assocSet_self _ _ _
  · rw [assocFind_assocSet_ne _ _ _ _ (by decide), assocFind_assocSet_ne _ _ _ _ (by decide),
      assocFind_assocSet_ne _ _ _ _ (by decide)]
    exact assocFind_assocSet_self _ _ _
  · rw [assocFind_assocSet_ne _ _ _ _ (by decide), assocFind_assocSet_ne _ _ _ _ (by decide)]
    exact assocFind_assocSet_self _ _ _
  · rw [assocFind_assocSet_ne _ _ _ _ (by decide)]
    exact assocFind_assocSet_self _ _ _
  · exact assocFind_assocSet_self _ _ _

/-- Witness for claim C6 at the spec's concrete unknown code. -/
theorem build_license_spec_witness :
    assocFind (S "spdx_identifier")
        (build_license .null (some (S "unknown-code-xyz")) (.str (S "Some Name"))) = none ∧
    assocFind (S "attribution_text")
        (build_license .null (some (S "unknown-code-xyz")) (.str (S "Some Name")))
      = some (.str (S "Some Name")) ∧
    assocFind (S "redistribution_allowed")
        (build_license .null (some (S "unknown-code-xyz")) (.str (S "Some Name")))
      = some (.str (S "unknown")) ∧
    assocFind (S "commercial_use_allowed")
        (build_license .null (some (S "unknown-code-xyz")) (.str (S "Some Name")))
      = some (.str (S "unknown")) ∧
    assocFind (S "create_derived_product")
        (build_license .null (some (S "unknown-code-xyz")) (.str (S "Some Name")))
      = some (.str (S "unknown")) ∧
    assocFind (S "share_alike_optional")
        (build_license .null (some (S "unknown-code-xyz")) (.str (S "Some Name")))
      = some (.str (S "unknown")) :=
  build_license_spec.2.2 (S "unknown-code-xyz") .null (.str (S "Some Name"))
    (by decide) (by decide)

/-! ## Claim C1: the registry write -/

/-- Claim C1, counterexample. The document merge neither sorts the result
by identifier nor keeps untouched entries byte-identical: with an existing
document listing ids "f-b" then "f-a" and one incoming feed "f-c", the
result keeps the document order (b, a, c — not sorted), and the preserved
"f-b" record loses its "unknown"-valued tag because every feed, preserved
ones included, is re-passed through `clean_empty_values` on line 595. -/
theorem merge_dmfr_feeds_counterexample :
    merge_dmfr_feeds
        (some [.obj [(S "id", .str (S "f-b")), (S "x", .str (S "unknown"))],
               .obj [(S "id", .str (S "f-a"))]])
        [.obj [(S "id", .str (S "f-c"))]]
      = some [.obj [(S "id", .str (S "f-b"))], .obj [(S "id", .str (S "f-a"))],
              .obj [(S "id", .str (S "f-c"))]] ∧
    sorted_by_id [.obj [(S "id", .str (S "f-b"))], .obj [(S "id", .str (S "f-a"))],
        .obj [(S "id", .str (S "f-c"))]] = false ∧
    (JVal.obj [(S "id", .str (S "f-b")), (S "x", .str (S "unknown"))]) ∉
      [JVal.obj [(S "id", .str (S "f-b"))], .obj [(S "id", .str (S "f-a"))],
       .obj [(S "id", .str (S "f-c"))]] := by
  decide

/-- Claim C1, amended. Given a readable existing document, the write
produces exactly: the document's feeds whose id is not among the incoming
ids, in document order, followed by the incoming feeds in input order —
each passed through the stripping pass (so preserved entries are preserved
only up to re-cleaning, not byte-identically, and the result is not sorted
by identifier). Every incoming feed appears (cleaned) in the result, and
every document feed whose id is absent from the incoming ids appears
(cleaned) in the result. -/
theorem merge_dmfr_feeds_spec (doc fs ids res : List JVal)
    (hids : fs.mapM (jget (S "id")) = some ids)
    (hres : merge_dmfr_feeds (some doc) fs = some res) :
    res = (doc.filter fun f =>
        !(ids.any fun i => jeq i ((jget (S "id") f).getD .null))).map clean_empty_values
      ++ fs.map clean_empty_values ∧
    (∀ f ∈ fs, clean_empty_values f ∈ res) ∧
    (∀ g ∈ doc, (∀ i ∈ ids, i ≠ (jget (S "id") g).getD .null) →
      clean_empty_values g ∈ res) := by
  have hcomp : merge_dmfr_feeds (some doc) fs =
      some (((doc.filter fun f =>
        !(ids.any fun i => jeq i ((jget (S "id") f).getD .null))) ++ fs).map
          clean_empty_values) := by
    rw [merge_dmfr_feeds, hids]
    rfl
  rw [hcomp] at hres
  have hres2 : res = (doc.filter fun f =>
      !(ids.any fun i => jeq i ((jget (S "id") f).getD .null))).map clean_empty_values
      ++ fs.map clean_empty_values := by
    have h2 := Option.some.inj hres
    rw [← h2]
    rw [List.map_append]
  refine ⟨hres2, ?_, ?_⟩
  · intro f hf
    rw [hres2]
    exact List.mem_append_right _ (List.mem_map_of_mem _ hf)
  · intro g hg hid
    rw [hres2]
    apply List.mem_append_left
    apply List.mem_map_of_mem
    rw [List.mem_filter]
    refine ⟨hg, ?_⟩
    simp only [Bool.not_eq_true', List.any_eq_false]
    intro i hi
    intro hjeq
    exact absurd ((jeq_iff_eq _ _).mp hjeq) (hid i hi)

/-- Witness for the amended claim C1 at a concrete document and incoming
set. -/
theorem merge_dmfr_feeds_spec_witness :
    (∀ f ∈ [JVal.obj [(S "id", .str (S "f-c"))]],
      clean_empty_values f ∈
        [JVal.obj [(S "id", .str (S "f-b"))], .obj [(S "id", .str (S "f-a"))],
         .obj [(S "id", .str (S "f-c"))]]) ∧
    (∀ g ∈ [JVal.obj [(S "id", .str (S "f-b")), (S "x", .str (S "unknown"))],
            JVal.obj [(S "id", .str (S "f-a"))]],
      (∀ i ∈ [JVal.str (S "f-c")], i ≠ (jget (S "id") g).getD .null) →
      clean_empty_values g ∈
        [JVal.obj [(S "id", .str (S "f-b"))], .obj [(S "id", .str (S "f-a"))],
         .obj [(S "id", .str (S "f-c"))]]) :=
  have h := merge_dmfr_feeds_spec
    [.obj [(S "id", .str (S "f-b")), (S "x", .str (S "unknown"))],
     .obj [(S "id", .str (S "f-a"))]]
    [.obj [(S "id", .str (S "f-c"))]]
    [.str (S "f-c")]
    [.obj [(S "id", .str (S "f-b"))], .obj [(S "id", .str (S "f-a"))],
     .obj [(S "id", .str (S "f-c"))]]
    (by decide) (by decide)
  ⟨h.2.1, h.2.2⟩

/-! ## Claim C2: the pruning pass of main -/

/-- Claim C2, failing input. Pruning confirmed-unchanged identifiers from
the incoming set does NOT remove them from the persisted document: after
the first write the on-disk document holds {A, B', C}; the second write is
invoked with incoming {C} (B' pruned), but B' is preserved FROM THE
DOCUMENT because its id is now absent from the incoming set, so the final
document is {A, B', C}, not {A, C}. This contradicts the code's own
comment and log line ("Removing unchanged feeds from DMFR file", lines
955-957). -/
theorem main_write_and_prune_keeps_pruned_feed :
    main_write_and_prune
      (some [.obj [(S "id", .str (S "f-a"))],
             .obj [(S "id", .str (S "f-b")), (S "note", .str (S "old"))]])
      [.obj [(S "id", .str (S "f-b")), (S "note", .str (S "new"))],
       .obj [(S "id", .str (S "f-c"))]]
      [] (fun _ => .error ()) [S "f-b"]
    = some [.obj [(S "id", .str (S "f-a"))],
            .obj [(S "id", .str (S "f-b")), (S "note", .str (S "new"))],
            .obj [(S "id", .str (S "f-c"))]] ∧
    (JVal.obj [(S "id", .str (S "f-b")), (S "note", .str (S "new"))]) ∈
      [JVal.obj [(S "id", .str (S "f-a"))],
       JVal.obj [(S "id", .str (S "f-b")), (S "note", .str (S "new"))],
       JVal.obj [(S "id", .str (S "f-c"))]] ∧
    [JVal.obj [(S "id", .str (S "f-a"))],
     JVal.obj [(S "id", .str (S "f-b")), (S "note", .str (S "new"))],
     JVal.obj [(S "id", .str (S "f-c"))]].map feedIdStr ≠ [S "f-a", S "f-c"] := by
  decide

/-! ## Lemmas about the record merger -/

theorem jget_apply_existing_ne (k : List Char) (ex : PriorFeed) (r : JVal)
    (h1 : k ≠ S "feed_versions") (h2 : k ≠ S "feed_state") (h3 : k ≠ S "name")
    (h4 : k ≠ S "license") (h5 : k ≠ S "languages") :
    jget k (apply_existing_feed ex r) = jget k r := by
  have e1 : ∀ v r', jget k (jset (S "feed_versions") v r') = jget k r' :=
    fun v r' => jget_jset_ne _ _ _ _ h1
  have e2 : ∀ v r', jget k (jset (S "feed_state") v r') = jget k r' :=
    fun v r' => jget_jset_ne _ _ _ _ h2
  have e3 : ∀ v r', jget k (jset (S "name") v r') = jget k r' :=
    fun v r' => jget_jset_ne _ _ _ _ h3
  have e4 : ∀ v r', jget k (jset (S "license") v r') = jget k r' :=
    fun v r' => jget_jset_ne _ _ _ _ h4
  have e5 : ∀ v r', jget k (jset (S "languages") v r') = jget k r' :=
    fun v r' => jget_jset_ne _ _ _ _ h5
  simp only [apply_existing_feed]
  repeat' split
  all_goals simp [e1, e2, e3, e4, e5]

theorem jget_apply_tags_ne (k : List Char) (exO : Option PriorFeed) (r : JVal)
    (h : k ≠ S "tags") :
    jget k (apply_existing_tags exO r) = jget k r := by
  have e : ∀ v r', jget k (jset (S "tags") v r') = jget k r' :=
    fun v r' => jget_jset_ne _ _ _ _ h
  simp only [apply_existing_tags]
  repeat' split
  all_goals simp [e]

theorem truthyO_some (o : Option JVal) (h : truthyO o = true) : ∃ v, o = some v ∧ truthy v = true := by
  cases o with
  | none => simp [truthyO] at h
  | some v => exact ⟨v, rfl, h⟩

theorem jget_fv_apply_existing (ex : PriorFeed) (fs : List (List Char × JVal))
    (h : truthyO ex.feed_versions = true) :
    jget (S "feed_versions") (apply_existing_feed ex (.obj fs)) = ex.feed_versions := by
  obtain ⟨v, hv, htv⟩ := truthyO_some _ h
  have e2 : ∀ w r', jget (S "feed_versions") (jset (S "feed_state") w r') =
      jget (S "feed_versions") r' := fun w r' => jget_jset_ne _ _ _ _ (by decide)
  have e3 : ∀ w r', jget (S "feed_versions") (jset (S "name") w r') =
      jget (S "feed_versions") r' := fun w r' => jget_jset_ne _ _ _ _ (by decide)
  have e4 : ∀ w r', jget (S "feed_versions") (jset (S "license") w r') =
      jget (S "feed_versions") r' := fun w r' => jget_jset_ne _ _ _ _ (by decide)
  have e5 : ∀ w r', jget (S "feed_versions") (jset (S "languages") w r') =
      jget (S "feed_versions") r' := fun w r' => jget_jset_ne _ _ _ _ (by decide)
  simp only [apply_existing_feed]
  rw [if_pos h]
  repeat' split
  all_goals simp [e2, e3, e4, e5, hv, jget_jset_self]

theorem jget_fstate_apply_existing (ex : PriorFeed) (fs : List (List Char × JVal))
    (h : truthyO ex.feed_state = true) :
    jget (S "feed_state") (apply_existing_feed ex (.obj fs)) = ex.feed_state := by
  obtain ⟨v, hv, htv⟩ := truthyO_some _ h
  have e1 : ∀ w r', jget (S "feed_state") (jset (S "feed_versions") w r') =
      jget (S "feed_state") r' := fun w r' => jget_jset_ne _ _ _ _ (by decide)
  have e3 : ∀ w r', jget (S "feed_state") (jset (S "name") w r') =
      jget (S "feed_state") r' := fun w r' => jget_jset_ne _ _ _ _ (by decide)
  have e4 : ∀ w r', jget (S "feed_state") (jset (S "license") w r') =
      jget (S "feed_state") r' := fun w r' => jget_jset_ne _ _ _ _ (by decide)
  have e5 : ∀ w r', jget (S "feed_state") (jset (S "languages") w r') =
      jget (S "feed_state") r' := fun w r' => jget_jset_ne _ _ _ _ (by decide)
  have a1 : ∀ (w : JVal) l, assocFind (S "feed_state") (assocSet (S "feed_versions") w l) =
      assocFind (S "feed_state") l := fun w l => assocFind_assocSet_ne _ _ _ _ (by decide)
  have a3 : ∀ (w : JVal) l, assocFind (S "feed_state") (assocSet (S "name") w l) =
      assocFind (S "feed_state") l := fun w l => assocFind_assocSet_ne _ _ _ _ (by decide)
  have a4 : ∀ (w : JVal) l, assocFind (S "feed_state") (assocSet (S "license") w l) =
      assocFind (S "feed_state") l := fun w l => assocFind_assocSet_ne _ _ _ _ (by decide)
  have a5 : ∀ (w : JVal) l, assocFind (S "feed_state") (assocSet (S "languages") w l) =
      assocFind (S "feed_state") l := fun w l => assocFind_assocSet_ne _ _ _ _ (by decide)
  simp only [apply_existing_feed]
  rw [if_pos h]
  repeat' split
  all_goals simp [e1, e3, e4, e5, a1, a3, a4, a5, hv, jget_jset_self, jset, jget,
    assocFind_assocSet_self]


theorem apply_existing_feed_eq_explicit (ex : PriorFeed) (fs : List (List Char × JVal)) :
    apply_existing_feed ex (.obj fs) = apply_existing_feed_explicit ex fs := by
  have e1 : ∀ (w : JVal) r', jget (S "name") (jset (S "feed_versions") w r') =
      jget (S "name") r' := fun w r' => jget_jset_ne _ _ _ _ (by decide)
  have e2 : ∀ (w : JVal) r', jget (S "name") (jset (S "feed_state") w r') =
      jget (S "name") r' := fun w r' => jget_jset_ne _ _ _ _ (by decide)
  have f1 : ∀ (w : JVal) r', jget (S "license") (jset (S "feed_versions") w r') =
      jget (S "license") r' := fun w r' => jget_jset_ne _ _ _ _ (by decide)
  have f2 : ∀ (w : JVal) r', jget (S "license") (jset (S "feed_state") w r') =
      jget (S "license") r' := fun w r' => jget_jset_ne _ _ _ _ (by decide)
  have f3 : ∀ (w : JVal) r', jget (S "license") (jset (S "name") w r') =
      jget (S "license") r' := fun w r' => jget_jset_ne _ _ _ _ (by decide)
  have hA : jget (S "name")
      (if truthyO ex.feed_state = true then
        jset (S "feed_state") (ex.feed_state.getD .null)
          (if truthyO ex.feed_versions = true then
            jset (S "feed_versions") (ex.feed_versions.getD .null) (.obj fs)
          else .obj fs)
      else
        (if truthyO ex.feed_versions = true then
          jset (S "feed_versions") (ex.feed_versions.getD .null) (.obj fs)
        else .obj fs)) = assocFind (S "name") fs := by
    repeat' split
    all_goals try simp only [e1, e2]
    all_goals rfl
  rw [apply_existing_feed, apply_existing_feed_explicit]
  rw [hA]
  have hC : jget (S "license")
      (if (!truthyO (assocFind (S "name") fs) && truthyO ex.name) = true then
        jset (S "name") (ex.name.getD .null)
          (if truthyO ex.feed_state = true then
            jset (S "feed_state") (ex.feed_state.getD .null)
              (if truthyO ex.feed_versions = true then
                jset (S "feed_versions") (ex.feed_versions.getD .null) (.obj fs)
              else .obj fs)
          else
            (if truthyO ex.feed_versions = true then
              jset (S "feed_versions") (ex.feed_versions.getD .null) (.obj fs)
            else .obj fs))
      else
        (if truthyO ex.feed_state = true then
          jset (S "feed_state") (ex.feed_state.getD .null)
            (if truthyO ex.feed_versions = true then
              jset (S "feed_versions") (ex.feed_versions.getD .null) (.obj fs)
            else .obj fs)
        else
          (if truthyO ex.feed_versions = true then
            jset (S "feed_versions") (ex.feed_versions.getD .null) (.obj fs)
          else .obj fs))) = assocFind (S "license") fs := by
    repeat' split
    all_goals try simp only [f1, f2, f3]
    all_goals rfl
  have hB : recordLicenseSpdx
      (if (!truthyO (assocFind (S "name") fs) && truthyO ex.name) = true then
        jset (S "name") (ex.name.getD .null)
          (if truthyO ex.feed_state = true then
            jset (S "feed_state") (ex.feed_state.getD .null)
              (if truthyO ex.feed_versions = true then
                jset (S "feed_versions") (ex.feed_versions.getD .null) (.obj fs)
              else .obj fs)
          else
            (if truthyO ex.feed_versions = true then
              jset (S "feed_versions") (ex.feed_versions.getD .null) (.obj fs)
            else .obj fs))
      else
        (if truthyO ex.feed_state = true then
          jset (S "feed_state") (ex.feed_state.getD .null)
            (if truthyO ex.feed_versions = true then
              jset (S "feed_versions") (ex.feed_versions.getD .null) (.obj fs)
            else .obj fs)
        else
          (if truthyO ex.feed_versions = true then
            jset (S "feed_versions") (ex.feed_versions.getD .null) (.obj fs)
          else .obj fs))) = recordLicenseSpdx (.obj fs) := by
    rw [recordLicenseSpdx, recordLicenseSpdx, hC]
    rfl
  rw [hB]

theorem jget_name_apply_existing_keep (ex : PriorFeed) (fs : List (List Char × JVal))
    (t : JVal) (ht : assocFind (S "name") fs = some t) (htr : truthy t = true) :
    jget (S "name") (apply_existing_feed ex (.obj fs)) = some t := by
  have e1 : ∀ (w : JVal) r', jget (S "name") (jset (S "feed_versions") w r') =
      jget (S "name") r' := fun w r' => jget_jset_ne _ _ _ _ (by decide)
  have e2 : ∀ (w : JVal) r', jget (S "name") (jset (S "feed_state") w r') =
      jget (S "name") r' := fun w r' => jget_jset_ne _ _ _ _ (by decide)
  have e4 : ∀ (w : JVal) r', jget (S "name") (jset (S "license") w r') =
      jget (S "name") r' := fun w r' => jget_jset_ne _ _ _ _ (by decide)
  have e5 : ∀ (w : JVal) r', jget (S "name") (jset (S "languages") w r') =
      jget (S "name") r' := fun w r' => jget_jset_ne _ _ _ _ (by decide)
  have hc3 : (!truthyO (assocFind (S "name") fs) && truthyO ex.name) = false := by
    rw [ht]
    simp [truthyO, htr]
  rw [apply_existing_feed_eq_explicit, apply_existing_feed_explicit]
  rw [hc3]
  simp only [Bool.false_eq_true, if_false]
  repeat' split
  all_goals try simp only [e1, e2, e4, e5]
  all_goals exact ht

theorem jget_name_apply_existing_preserve (ex : PriorFeed) (fs : List (List Char × JVal))
    (t : JVal) (ht : assocFind (S "name") fs = some t) (htr : truthy t = false)
    (hexn : truthyO ex.name = true) :
    jget (S "name") (apply_existing_feed ex (.obj fs)) = ex.name := by
  obtain ⟨v, hv, htv⟩ := truthyO_some _ hexn
  have a1 : ∀ (w : JVal) l, assocFind (S "name") (assocSet (S "feed_versions") w l) =
      assocFind (S "name") l := fun w l => assocFind_assocSet_ne _ _ _ _ (by decide)
  have a2 : ∀ (w : JVal) l, assocFind (S "name") (assocSet (S "feed_state") w l) =
      assocFind (S "name") l := fun w l => assocFind_assocSet_ne _ _ _ _ (by decide)
  have a4 : ∀ (w : JVal) l, assocFind (S "name") (assocSet (S "license") w l) =
      assocFind (S "name") l := fun w l => assocFind_assocSet_ne _ _ _ _ (by decide)
  have a5 : ∀ (w : JVal) l, assocFind (S "name") (assocSet (S "languages") w l) =
      assocFind (S "name") l := fun w l => assocFind_assocSet_ne _ _ _ _ (by decide)
  have hc3 : (!truthyO (assocFind (S "name") fs) && truthyO ex.name) = true := by
    rw [ht, hexn]
    simp [truthyO, htr]
  rw [apply_existing_feed_eq_explicit, apply_existing_feed_explicit]
  rw [hc3]
  simp only [if_true]
  repeat' split
  all_goals simp only [jset, jget, a1, a2, a4, a5, assocFind_assocSet_self, hv, Option.getD_some]

theorem jget_license_apply_existing_replace (ex : PriorFeed) (fs : List (List Char × JVal))
    (newL : List (List Char × JVal))
    (hlic : assocFind (S "license") fs = some (.obj newL))
    (hexspdx : truthyO (assocFind (S "spdx_identifier") ex.license) = true)
    (hnew : truthyO (assocFind (S "spdx_identifier") newL) = false) :
    jget (S "license") (apply_existing_feed ex (.obj fs)) = some (.obj ex.license) := by
  have a1 : ∀ (w : JVal) l, assocFind (S "license") (assocSet (S "feed_versions") w l) =
      assocFind (S "license") l := fun w l => assocFind_assocSet_ne _ _ _ _ (by decide)
  have a2 : ∀ (w : JVal) l, assocFind (S "license") (assocSet (S "feed_state") w l) =
      assocFind (S "license") l := fun w l => assocFind_assocSet_ne _ _ _ _ (by decide)
  have a3 : ∀ (w : JVal) l, assocFind (S "license") (assocSet (S "name") w l) =
      assocFind (S "license") l := fun w l => assocFind_assocSet_ne _ _ _ _ (by decide)
  have a5 : ∀ (w : JVal) l, assocFind (S "license") (assocSet (S "languages") w l) =
      assocFind (S "license") l := fun w l => assocFind_assocSet_ne _ _ _ _ (by decide)
  have hc4 : (truthyO (assocFind (S "spdx_identifier") ex.license)
      && !truthyO (recordLicenseSpdx (.obj fs))) = true := by
    rw [hexspdx]
    rw [show recordLicenseSpdx (.obj fs) = assocFind (S "spdx_identifier") newL by
      rw [recordLicenseSpdx, jget, hlic]]
    rw [hnew]
    rfl
  rw [apply_existing_feed_eq_explicit, apply_existing_feed_explicit]
  rw [hc4]
  simp only [if_true]
  repeat' split
  all_goals simp only [jset, jget, a1, a2, a3, a5, assocFind_assocSet_self]

theorem jget_license_apply_existing_keep (ex : PriorFeed) (fs : List (List Char × JVal))
    (hc4 : (truthyO (assocFind (S "spdx_identifier") ex.license)
      && !truthyO (recordLicenseSpdx (.obj fs))) = false) :
    jget (S "license") (apply_existing_feed ex (.obj fs)) =
      assocFind (S "license") fs := by
  have a1 : ∀ (w : JVal) l, assocFind (S "license") (assocSet (S "feed_versions") w l) =
      assocFind (S "license") l := fun w l => assocFind_assocSet_ne _ _ _ _ (by decide)
  have a2 : ∀ (w : JVal) l, assocFind (S "license") (assocSet (S "feed_state") w l) =
      assocFind (S "license") l := fun w l => assocFind_assocSet_ne _ _ _ _ (by decide)
  have a3 : ∀ (w : JVal) l, assocFind (S "license") (assocSet (S "name") w l) =
      assocFind (S "license") l := fun w l => assocFind_assocSet_ne _ _ _ _ (by decide)
  have a5 : ∀ (w : JVal) l, assocFind (S "license") (assocSet (S "languages") w l) =
      assocFind (S "license") l := fun w l => assocFind_assocSet_ne _ _ _ _ (by decide)
  rw [apply_existing_feed_eq_explicit, apply_existing_feed_explicit]
  rw [hc4]
  simp only [Bool.false_eq_true, if_false]
  repeat' split
  all_goals simp only [jset, jget, a1, a2, a3, a5, assocFind_assocSet_self]

theorem jget_id_base (d : Dataset) (res : Resource) :
    jget (S "id") (base_feed_record d res) = some (.str (feed_id_of_slug d.slug)) := rfl

theorem jget_name_base (d : Dataset) (res : Resource) :
    jget (S "name") (base_feed_record d res) = some d.title := rfl

theorem jget_license_base (d : Dataset) (res : Resource) :
    jget (S "license") (base_feed_record d res) =
      some (.obj (build_license d.page_url d.licence (titleDefaulted d))) := rfl

theorem jget_tags_base (d : Dataset) (res : Resource) :
    jget (S "tags") (base_feed_record d res) =
      some (.obj [(S "fr_nap_dataset_id", d.id)]) := rfl

theorem base_feed_record_entries (d : Dataset) (res : Resource) :
    base_feed_record d res = .obj
      [ (S "id", .str (feed_id_of_slug d.slug)),
        (S "spec", .str (S "gtfs")),
        (S "urls", .obj [(S "static_current", res.url)]),
        (S "license", .obj (build_license d.page_url d.licence (titleDefaulted d))),
        (S "name", d.title),
        (S "tags", .obj [(S "fr_nap_dataset_id", d.id)]) ] := rfl

theorem apply_existing_feed_obj (ex : PriorFeed) (fs : List (List Char × JVal)) :
    ∃ gs, apply_existing_feed ex (.obj fs) = .obj gs := by
  simp only [apply_existing_feed]
  repeat' split
  all_goals exact ⟨_, rfl⟩

theorem apply_existing_tags_merge (ex : PriorFeed) (rs ts : List (List Char × JVal))
    (hne : ex.tags ≠ []) (hjt : jget (S "tags") (.obj rs) = some (.obj ts)) :
    jget (S "tags") (apply_existing_tags (some ex) (.obj rs)) =
      some (.obj (assocUpdate ex.tags ts)) := by
  rw [apply_existing_tags]
  rw [if_neg (by simpa [List.isEmpty_iff] using hne)]
  rw [hjt]
  exact jget_jset_self _ _ _

theorem apply_existing_tags_empty (ex : PriorFeed) (r : JVal) (he : ex.tags = []) :
    apply_existing_tags (some ex) r = r := by
  rw [apply_existing_tags, he]
  rfl

theorem assocUpdate_single (base : List (List Char × JVal)) (k : List Char) (v : JVal) :
    assocUpdate base [(k, v)] = assocSet k v base := rfl

/-! ## Claim C4: prior-record preservation in the merger -/

theorem create_feed_record_raw_some (d : Dataset)
    (existing : List (List Char × PriorFeed)) (res : Resource) (ex : PriorFeed) (r : JVal)
    (hres : d.resources.find? is_static_gtfs = some res)
    (hex : assocFind (feed_id_of_slug d.slug) existing = some ex)
    (hraw : create_feed_record_raw d existing = some r) :
    r = apply_existing_tags (some ex) (apply_existing_feed ex (base_feed_record d res)) := by
  rw [create_feed_record_raw] at hraw
  rw [hres] at hraw
  dsimp only at hraw
  rw [hex] at hraw
  dsimp only at hraw
  exact (Option.some.inj hraw).symm

/-- Claim C4. On the record as merged (before the final stripping pass,
which is the subject of step 6 / claim C9): a prior record's feed_versions
and feed_state are carried over verbatim when truthy; the prior name is
used exactly when the new entry supplied no (truthy) title and the prior
name is truthy; the prior license replaces the newly built one wholesale
exactly when the prior has a truthy spdx_identifier and the new license
does not; and tags are merged by overlaying the freshly computed tags on
the prior tag mapping, so the provenance tag always maps to the catalog
entry id while every other prior tag survives; with no truthy prior tags
the tags are exactly the fresh provenance mapping, so the provenance key
is never dropped. -/
theorem create_feed_record_preserves_prior (d : Dataset)
    (existing : List (List Char × PriorFeed)) (res : Resource) (ex : PriorFeed) (r : JVal)
    (hres : d.resources.find? is_static_gtfs = some res)
    (hex : assocFind (feed_id_of_slug d.slug) existing = some ex)
    (hraw : create_feed_record_raw d existing = some r) :
    (truthyO ex.feed_versions = true → jget (S "feed_versions") r = ex.feed_versions) ∧
    (truthyO ex.feed_state = true → jget (S "feed_state") r = ex.feed_state) ∧
    (truthy d.title = true → jget (S "name") r = some d.title) ∧
    (truthy d.title = false → truthyO ex.name = true → jget (S "name") r = ex.name) ∧
    (truthyO (assocFind (S "spdx_identifier") ex.license) = true →
      truthyO (assocFind (S "spdx_identifier")
        (build_license d.page_url d.licence (titleDefaulted d))) = false →
      jget (S "license") r = some (.obj ex.license)) ∧
    ((truthyO (assocFind (S "spdx_identifier") ex.license)
        && !truthyO (assocFind (S "spdx_identifier")
          (build_license d.page_url d.licence (titleDefaulted d)))) = false →
      jget (S "license") r =
        some (.obj (build_license d.page_url d.licence (titleDefaulted d)))) ∧
    (ex.tags ≠ [] →
      jget (S "tags") r =
        some (.obj (assocUpdate ex.tags [(S "fr_nap_dataset_id", d.id)])) ∧
      assocFind (S "fr_nap_dataset_id")
        (assocUpdate ex.tags [(S "fr_nap_dataset_id", d.id)]) = some d.id ∧
      (∀ k, k ≠ S "fr_nap_dataset_id" →
        assocFind k (assocUpdate ex.tags [(S "fr_nap_dataset_id", d.id)]) =
          assocFind k ex.tags)) ∧
    (ex.tags = [] → jget (S "tags") r = some (.obj [(S "fr_nap_dataset_id", d.id)])) := by
  have hr := create_feed_record_raw_some d existing res ex r hres hex hraw
  refine ⟨?_, ?_, ?_, ?_, ?_, ?_, ?_, ?_⟩
  · intro h
    rw [hr, jget_apply_tags_ne _ _ _ (by decide), base_feed_record_entries]
    exact jget_fv_apply_existing ex _ h
  · intro h
    rw [hr, jget_apply_tags_ne _ _ _ (by decide), base_feed_record_entries]
    exact jget_fstate_apply_existing ex _ h
  · intro h
    rw [hr, jget_apply_tags_ne _ _ _ (by decide), base_feed_record_entries]
    exact jget_name_apply_existing_keep ex _ d.title rfl h
  · intro h h2
    rw [hr, jget_apply_tags_ne _ _ _ (by decide), base_feed_record_entries]
    exact jget_name_apply_existing_preserve ex _ d.title rfl h h2
  · intro h1 h2
    rw [hr, jget_apply_tags_ne _ _ _ (by decide), base_feed_record_entries]
    exact jget_license_apply_existing_replace ex _
      (build_license d.page_url d.licence (titleDefaulted d)) rfl h1 h2
  · intro hc
    rw [hr, jget_apply_tags_ne _ _ _ (by decide), base_feed_record_entries]
    have hc' : (truthyO (assocFind (S "spdx_identifier") ex.license)
        && !truthyO (recordLicenseSpdx (JVal.obj
          [ (S "id", .str (feed_id_of_slug d.slug)),
            (S "spec", .str (S "gtfs")),
            (S "urls", .obj [(S "static_current", res.url)]),
            (S "license", .obj (build_license d.page_url d.licence (titleDefaulted d))),
            (S "name", d.title),
            (S "tags", .obj [(S "fr_nap_dataset_id", d.id)]) ]))) = false := hc
    rw [jget_license_apply_existing_keep ex _ hc']
    rfl
  · intro hne
    refine ⟨?_, ?_, ?_⟩
    · rw [hr, base_feed_record_entries]
      obtain ⟨gs, hgs⟩ := apply_existing_feed_obj ex
        [ (S "id", .str (feed_id_of_slug d.slug)),
          (S "spec", .str (S "gtfs")),
          (S "urls", .obj [(S "static_current", res.url)]),
          (S "license", .obj (build_license d.page_url d.licence (titleDefaulted d))),
          (S "name", d.title),
          (S "tags", .obj [(S "fr_nap_dataset_id", d.id)]) ]
      rw [hgs]
      apply apply_existing_tags_merge ex gs _ hne
      rw [← hgs]
      rw [show (JVal.obj
        [ (S "id", .str (feed_id_of_slug d.slug)),
          (S "spec", .str (S "gtfs")),
          (S "urls", .obj [(S "static_current", res.url)]),
          (S "license", .obj (build_license d.page_url d.licence (titleDefaulted d))),
          (S "name", d.title),
          (S "tags", .obj [(S "fr_nap_dataset_id", d.id)]) ])
        = base_feed_record d res from rfl]
      rw [jget_apply_existing_ne _ _ _ (by decide) (by decide) (by decide) (by decide)
        (by decide)]
      exact jget_tags_base d res
    · rw [assocUpdate_single]
      exact assocFind_assocSet_self _ _ _
    · intro k hk
      rw [assocUpdate_single]
      exact assocFind_assocSet_ne _ _ _ _ hk
  · intro he
    rw [hr, apply_existing_tags_empty ex _ he, base_feed_record_entries]
    rw [jget_apply_existing_ne _ _ _ (by decide) (by decide) (by decide) (by decide)
      (by decide)]
    rfl

/-- Witness for claim C4 at a concrete entry with a matching prior record:
the prior feed_versions ride along verbatim, the prior name is preserved
(the new entry has no title), the prior license replaces the new one (the
new entry has no recognized license code while the prior carries an spdx
identifier), and the provenance tag maps to the new catalog id. -/
theorem create_feed_record_preserves_prior_witness :
    jget (S "feed_versions")
        ((create_feed_record_raw
          ⟨S "acme", .str (S "NEWID"), .null, .null, none, [⟨S "GTFS", .str (S "u")⟩]⟩
          [(S "f-acme~fr",
            ⟨some (.arr [.str (S "v1")]), some (.obj [(S "k", .str (S "s"))]),
             some (.str (S "Old Name")), [(S "spdx_identifier", .str (S "LO-2.0"))],
             none,
             [(S "other", .str (S "x")),
              (S "fr_nap_dataset_id", .str (S "OLDID"))]⟩)]).getD .null)
      = some (.arr [.str (S "v1")]) ∧
    jget (S "name")
        ((create_feed_record_raw
          ⟨S "acme", .str (S "NEWID"), .null, .null, none, [⟨S "GTFS", .str (S "u")⟩]⟩
          [(S "f-acme~fr",
            ⟨some (.arr [.str (S "v1")]), some (.obj [(S "k", .str (S "s"))]),
             some (.str (S "Old Name")), [(S "spdx_identifier", .str (S "LO-2.0"))],
             none,
             [(S "other", .str (S "x")),
              (S "fr_nap_dataset_id", .str (S "OLDID"))]⟩)]).getD .null)
      = some (.str (S "Old Name")) ∧
    jget (S "license")
        ((create_feed_record_raw
          ⟨S "acme", .str (S "NEWID"), .null, .null, none, [⟨S "GTFS", .str (S "u")⟩]⟩
          [(S "f-acme~fr",
            ⟨some (.arr [.str (S "v1")]), some (.obj [(S "k", .str (S "s"))]),
             some (.str (S "Old Name")), [(S "spdx_identifier", .str (S "LO-2.0"))],
             none,
             [(S "other", .str (S "x")),
              (S "fr_nap_dataset_id", .str (S "OLDID"))]⟩)]).getD .null)
      = some (.obj [(S "spdx_identifier", .str (S "LO-2.0"))]) ∧
    assocFind (S "fr_nap_dataset_id")
        (assocUpdate
          [(S "other", .str (S "x")), (S "fr_nap_dataset_id", .str (S "OLDID"))]
          [(S "fr_nap_dataset_id", .str (S "NEWID"))])
      = some (.str (S "NEWID")) :=
  have h := create_feed_record_preserves_prior
    ⟨S "acme", .str (S "NEWID"), .null, .null, none, [⟨S "GTFS", .str (S "u")⟩]⟩
    [(S "f-acme~fr",
      ⟨some (.arr [.str (S "v1")]), some (.obj [(S "k", .str (S "s"))]),
       some (.str (S "Old Name")), [(S "spdx_identifier", .str (S "LO-2.0"))],
       none,
       [(S "other", .str (S "x")), (S "fr_nap_dataset_id", .str (S "OLDID"))]⟩)]
    ⟨S "GTFS", .str (S "u")⟩
    ⟨some (.arr [.str (S "v1")]), some (.obj [(S "k", .str (S "s"))]),
     some (.str (S "Old Name")), [(S "spdx_identifier", .str (S "LO-2.0"))],
     none,
     [(S "other", .str (S "x")), (S "fr_nap_dataset_id", .str (S "OLDID"))]⟩
    _ rfl rfl rfl
  ⟨h.1 (by decide),
   h.2.2.2.1 (by decide) (by decide),
   h.2.2.2.2.1 (by decide) (by decide),
   (h.2.2.2.2.2.2.1 (by decide)).2.1⟩

/-! ## Key-uniqueness machinery for lookups through the stripping pass -/

theorem mem_keys_assocSet (k'' k : List Char) (v : JVal) (fs : List (List Char × JVal))
    (h : k'' ∈ (assocSet k v fs).map Prod.fst) :
    k'' = k ∨ k'' ∈ fs.map Prod.fst := by
  induction fs with
  | nil => simpa [assocSet] using h
  | cons kv rest ih =>
    obtain ⟨k', v'⟩ := kv
    by_cases h2 : k' = k
    · subst h2
      rw [assocSet, if_pos (by simp)] at h
      simp only [List.map_cons, List.mem_cons] at h ⊢
      rcases h with h | h
      · exact Or.inr (Or.inl h)
      · exact Or.inr (Or.inr h)
    · rw [assocSet, if_neg (by simpa using h2)] at h
      simp only [List.map_cons, List.mem_cons] at h ⊢
      rcases h with h | h
      · exact Or.inr (Or.inl h)
      · rcases ih h with h3 | h3
        · exact Or.inl h3
        · exact Or.inr (Or.inr h3)

theorem nodupKeys_assocSet (k : List Char) (v : JVal) (fs : List (List Char × JVal))
    (h : (fs.map Prod.fst).Nodup) : ((assocSet k v fs).map Prod.fst).Nodup := by
  induction fs with
  | nil => simp [assocSet]
  | cons kv rest ih =>
    obtain ⟨k', v'⟩ := kv
    simp only [List.map_cons, List.nodup_cons] at h
    by_cases h2 : k' = k
    · subst h2
      rw [assocSet, if_pos (by simp)]
      simp only [List.map_cons, List.nodup_cons]
      exact h
    · rw [assocSet, if_neg (by simpa using h2)]
      simp only [List.map_cons, List.nodup_cons]
      refine ⟨?_, ih h.2⟩
      intro hmem
      rcases mem_keys_assocSet k' k v rest hmem with h3 | h3
      · exact h2 h3
      · exact h.1 h3

theorem mem_keys_cleanObjEntries (k : List Char) (fs : List (List Char × JVal))
    (h : k ∈ (cleanObjEntries fs).map Prod.fst) : k ∈ fs.map Prod.fst := by
  induction fs with
  | nil => simpa [cleanObjEntries] using h
  | cons kv rest ih =>
    obtain ⟨k', v'⟩ := kv
    rw [cleanObjEntries] at h
    by_cases h2 : isEmptyDictVal v' = true
    · rw [if_pos h2] at h
      exact List.mem_cons_of_mem _ (ih h)
    · rw [if_neg h2] at h
      simp only [List.map_cons, List.mem_cons] at h ⊢
      rcases h with h | h
      · exact Or.inl h
      · exact Or.inr (ih h)

theorem assocFind_none_of_not_mem_keys (k : List Char) (fs : List (List Char × JVal))
    (h : k ∉ fs.map Prod.fst) : assocFind k fs = none := by
  induction fs with
  | nil => rfl
  | cons kv rest ih =>
    obtain ⟨k', v'⟩ := kv
    simp only [List.map_cons, List.mem_cons] at h
    push_neg at h
    rw [assocFind, if_neg (by simp only [beq_iff_eq]; exact fun hh => h.1 hh.symm)]
    exact ih h.2

theorem assocFind_cleanObjEntries (fs : List (List Char × JVal))
    (h : (fs.map Prod.fst).Nodup) (k : List Char) :
    assocFind k (cleanObjEntries fs) =
      (assocFind k fs).bind
        (fun v => if isEmptyDictVal v then none else some (clean_empty_values v)) := by
  induction fs with
  | nil => rfl
  | cons kv rest ih =>
    obtain ⟨k', v'⟩ := kv
    simp only [List.map_cons, List.nodup_cons] at h
    rw [cleanObjEntries]
    by_cases h2 : k' = k
    · subst h2
      rw [show assocFind k' ((k', v') :: rest) = some v' from by
        rw [assocFind, if_pos (by simp)]]
      by_cases h3 : isEmptyDictVal v' = true
      · rw [if_pos h3]
        have h4 : assocFind k' (cleanObjEntries rest) = none := by
          apply assocFind_none_of_not_mem_keys
          intro hmem
          exact h.1 (mem_keys_cleanObjEntries _ _ hmem)
        rw [h4]
        simp [h3]
      · rw [if_neg h3]
        rw [show assocFind k' ((k', clean_empty_values v') :: cleanObjEntries rest) =
            some (clean_empty_values v') from by
          rw [assocFind, if_pos (by simp)]]
        simp [h3]
    · by_cases h3 : isEmptyDictVal v' = true
      · rw [if_pos h3]
        rw [show assocFind k ((k', v') :: rest) = assocFind k rest from by
          rw [assocFind, if_neg (by simpa using h2)]]
        exact ih h.2
      · rw [if_neg h3]
        rw [show assocFind k ((k', clean_empty_values v') :: cleanObjEntries rest) =
            assocFind k (cleanObjEntries rest) from by
          rw [assocFind, if_neg (by simpa using h2)]]
        rw [show assocFind k ((k', v') :: rest) = assocFind k rest from by
          rw [assocFind, if_neg (by simpa using h2)]]
        exact ih h.2

theorem apply_existing_feed_obj_nodup (ex : PriorFeed) (fs : List (List Char × JVal))
    (h : (fs.map Prod.fst).Nodup) :
    ∃ gs, apply_existing_feed ex (.obj fs) = .obj gs ∧ (gs.map Prod.fst).Nodup := by
  simp only [apply_existing_feed]
  repeat' split
  all_goals exact ⟨_, rfl, by
    try simp only [jset]
    repeat' apply nodupKeys_assocSet
    exact h⟩

theorem apply_existing_tags_obj_nodup (exO : Option PriorFeed) (gs : List (List Char × JVal))
    (h : (gs.map Prod.fst).Nodup) :
    ∃ hs, apply_existing_tags exO (.obj gs) = .obj hs ∧ (hs.map Prod.fst).Nodup := by
  simp only [apply_existing_tags]
  repeat' split
  all_goals exact ⟨_, rfl, by
    try simp only [jset]
    repeat' apply nodupKeys_assocSet
    exact h⟩

theorem base_keys_nodup (d : Dataset) (res : Resource) :
    (([ (S "id", JVal.str (feed_id_of_slug d.slug)),
        (S "spec", JVal.str (S "gtfs")),
        (S "urls", JVal.obj [(S "static_current", res.url)]),
        (S "license", JVal.obj (build_license d.page_url d.licence (titleDefaulted d))),
        (S "name", d.title),
        (S "tags", JVal.obj [(S "fr_nap_dataset_id", d.id)]) ] :
      List (List Char × JVal)).map Prod.fst).Nodup := by
  simp only [List.map_cons, List.map_nil]
  decide

theorem create_feed_record_raw_obj_nodup (d : Dataset)
    (existing : List (List Char × PriorFeed)) (r : JVal)
    (hraw : create_feed_record_raw d existing = some r) :
    ∃ gs, r = .obj gs ∧ (gs.map Prod.fst).Nodup := by
  cases hres : d.resources.find? is_static_gtfs with
  | none =>
    rw [create_feed_record_raw, hres] at hraw
    exact absurd hraw (by simp)
  | some res =>
    cases hex : assocFind (feed_id_of_slug d.slug) existing with
    | none =>
      rw [create_feed_record_raw, hres] at hraw
      dsimp only at hraw
      rw [hex] at hraw
      dsimp only at hraw
      obtain ⟨hs, hh, hnd⟩ := apply_existing_tags_obj_nodup none _ (base_keys_nodup d res)
      rw [base_feed_record_entries] at hraw
      rw [hh] at hraw
      exact ⟨hs, (Option.some.inj hraw).symm, hnd⟩
    | some ex =>
      have hr := create_feed_record_raw_some d existing res ex r hres hex hraw
      obtain ⟨gs, hgs, hnd⟩ := apply_existing_feed_obj_nodup ex _ (base_keys_nodup d res)
      rw [base_feed_record_entries, hgs] at hr
      obtain ⟨hs, hh, hnd2⟩ := apply_existing_tags_obj_nodup (some ex) gs hnd
      rw [hh] at hr
      exact ⟨hs, hr, hnd2⟩

theorem jget_id_raw (d : Dataset) (existing : List (List Char × PriorFeed)) (r : JVal)
    (hraw : create_feed_record_raw d existing = some r) :
    jget (S "id") r = some (.str (feed_id_of_slug d.slug)) := by
  cases hres : d.resources.find? is_static_gtfs with
  | none =>
    rw [create_feed_record_raw, hres] at hraw
    exact absurd hraw (by simp)
  | some res =>
    cases hex : assocFind (feed_id_of_slug d.slug) existing with
    | none =>
      rw [create_feed_record_raw, hres] at hraw
      dsimp only at hraw
      rw [hex] at hraw
      dsimp only at hraw
      rw [← Option.some.inj hraw]
      rw [show apply_existing_tags none (base_feed_record d res) =
        base_feed_record d res from rfl]
      exact jget_id_base d res
    | some ex =>
      have hr := create_feed_record_raw_some d existing res ex r hres hex hraw
      rw [hr, jget_apply_tags_ne _ _ _ (by decide), base_feed_record_entries]
      rw [jget_apply_existing_ne _ _ _ (by decide) (by decide) (by decide) (by decide)
        (by decide)]
      rfl

theorem isEmptyDictVal_fid (x : List Char) :
    isEmptyDictVal (.str ('f' :: '-' :: x)) = false := by
  have h1 : ('f' :: '-' :: x) ≠ ([] : List Char) := by simp
  have h2 : ('f' :: '-' :: x) ≠ S "unknown" := by
    rw [show S "unknown" = 'u' :: S "nknown" from rfl]
    intro h
    injection h with ha hb
    exact absurd ha (by decide)
  simp [isEmptyDictVal, jeq, beq_iff_eq, h1, h2]

theorem jget_id_create (d : Dataset) (existing : List (List Char × PriorFeed)) (r : JVal)
    (hrec : create_feed_record d existing = some r) :
    jget (S "id") r = some (.str (feed_id_of_slug d.slug)) := by
  obtain ⟨r0, hraw, hclean⟩ : ∃ r0, create_feed_record_raw d existing = some r0 ∧
      r = clean_empty_values r0 := by
    rw [create_feed_record] at hrec
    cases h0 : create_feed_record_raw d existing with
    | none => rw [h0] at hrec; exact absurd hrec (by simp)
    | some r0 =>
      rw [h0] at hrec
      exact ⟨r0, rfl, (Option.some.inj hrec).symm⟩
  have hid := jget_id_raw d existing r0 hraw
  obtain ⟨gs, hgs, hnd⟩ := create_feed_record_raw_obj_nodup d existing r0 hraw
  rw [hgs] at hid
  rw [hclean, hgs]
  rw [show clean_empty_values (.obj gs) = .obj (cleanObjEntries gs) from rfl]
  rw [show jget (S "id") (JVal.obj (cleanObjEntries gs)) =
    assocFind (S "id") (cleanObjEntries gs) from rfl]
  rw [assocFind_cleanObjEntries gs hnd]
  rw [show jget (S "id") (JVal.obj gs) = assocFind (S "id") gs from rfl] at hid
  rw [hid]
  have hbad := isEmptyDictVal_fid (name_component_of_slug d.slug)
  rw [show ('f' :: '-' :: name_component_of_slug d.slug) =
    feed_id_of_slug d.slug from rfl] at hbad
  dsimp only [Option.bind]
  rw [if_neg (by simp [hbad])]
  rfl

/-- C5: `create_feed_record` is deterministic — the same catalog entry and
the same prior-record mapping always yield the same (byte-identical,
post-stripping) record — and the `"id"` field of any record it produces is
a pure function of the slug alone: two entries with equal slugs receive
equal identifiers, namely `feed_id_of_slug slug`, whatever their other
fields or prior states. -/
theorem create_feed_record_deterministic :
    (∀ (d : Dataset) (e : List (List Char × PriorFeed)),
      create_feed_record d e = create_feed_record d e) ∧
    (∀ (d d' : Dataset) (e e' : List (List Char × PriorFeed)) (r r' : JVal),
      d.slug = d'.slug →
      create_feed_record d e = some r →
      create_feed_record d' e' = some r' →
      jget (S "id") r = jget (S "id") r' ∧
      jget (S "id") r = some (.str (feed_id_of_slug d.slug))) := by
  refine ⟨fun d e => rfl, fun d d' e e' r r' hs h h' => ?_⟩
  have h1 := jget_id_create d e r h
  have h2 := jget_id_create d' e' r' h'
  constructor
  · rw [h1, h2, hs]
  · exact h1

/-- Witness for C5 at two concrete entries sharing the slug `"acme"` but
differing in every other field and in prior state. -/
theorem create_feed_record_deterministic_witness :
    jget (S "id")
      ((create_feed_record
          ⟨S "acme", .str (S "D1"), .str (S "T"), .str (S "http://x"),
            some (S "odc-odbl"), [⟨S "GTFS", .str (S "u")⟩]⟩ []).getD .null) =
      some (.str (feed_id_of_slug (S "acme"))) :=
  (create_feed_record_deterministic.2
      ⟨S "acme", .str (S "D1"), .str (S "T"), .str (S "http://x"),
        some (S "odc-odbl"), [⟨S "GTFS", .str (S "u")⟩]⟩
      ⟨S "acme", .null, .null, .null, none, [⟨S "GTFS", .str (S "v")⟩]⟩
      [] [] _ _ rfl rfl rfl).2

theorem jget_license_raw (d : Dataset) (existing : List (List Char × PriorFeed)) (r : JVal)
    (hprior : ∀ ex, assocFind (feed_id_of_slug d.slug) existing = some ex →
      truthyO (assocFind (S "spdx_identifier") ex.license) = false)
    (hraw : create_feed_record_raw d existing = some r) :
    jget (S "license") r =
      some (.obj (build_license d.page_url d.licence (titleDefaulted d))) := by
  cases hres : d.resources.find? is_static_gtfs with
  | none =>
    rw [create_feed_record_raw, hres] at hraw
    exact absurd hraw (by simp)
  | some res =>
    cases hex : assocFind (feed_id_of_slug d.slug) existing with
    | none =>
      rw [create_feed_record_raw, hres] at hraw
      dsimp only at hraw
      rw [hex] at hraw
      dsimp only at hraw
      rw [← Option.some.inj hraw]
      rw [show apply_existing_tags none (base_feed_record d res) =
        base_feed_record d res from rfl]
      exact jget_license_base d res
    | some ex =>
      have hr := create_feed_record_raw_some d existing res ex r hres hex hraw
      rw [hr, jget_apply_tags_ne _ _ _ (by decide), base_feed_record_entries]
      rw [jget_license_apply_existing_keep ex _ (by rw [hprior ex hex]; simp)]
      rfl

/-- C10 counterexample: a catalog entry with no license code and the
present page url `"unknown"` (truthy in Python, so `build_license` emits
`{url: "unknown"}`), built against an empty prior mapping. The final
stripping pass removes the `"unknown"`-valued `url` entry, so the returned
record carries the license `{}` — a license object that does NOT contain
the url field, refuting "a license containing only the url field when
page_url is present". -/
theorem create_feed_record_absent_license_counterexample :
    jget (S "license")
      ((create_feed_record
          ⟨S "acme", .str (S "DS1"), .null, .str (S "unknown"), none,
            [⟨S "GTFS", .str (S "u")⟩]⟩ []).getD .null) = some (.obj []) ∧
    jget (S "license")
      ((create_feed_record
          ⟨S "acme", .str (S "DS1"), .null, .str (S "unknown"), none,
            [⟨S "GTFS", .str (S "u")⟩]⟩ []).getD .null) ≠
      some (.obj [(S "url", .str (S "unknown"))]) := by decide

/-- C10 (amended): with an absent or empty license code and no prior spdx
identifier, the record's license never receives the permissive-unknown
template; it is exactly `{url: page_url}` when the page url is a truthy
string other than `"unknown"`, absent entirely when the page url is falsy
(the empty license dict is stripped), and the empty object `{}` when the
page url is the literal string `"unknown"` (the url entry is stripped but
the enclosing dict, judged before cleaning, is kept). -/
theorem create_feed_record_absent_license (d : Dataset)
    (existing : List (List Char × PriorFeed)) (r : JVal)
    (hlic : d.licence = none ∨ d.licence = some [])
    (hprior : ∀ ex, assocFind (feed_id_of_slug d.slug) existing = some ex →
      truthyO (assocFind (S "spdx_identifier") ex.license) = false)
    (hrec : create_feed_record d existing = some r) :
    (∀ u, d.page_url = .str u → u ≠ [] → u ≠ S "unknown" →
      jget (S "license") r = some (.obj [(S "url", .str u)])) ∧
    (truthy d.page_url = false → jget (S "license") r = none) ∧
    (d.page_url = .str (S "unknown") → jget (S "license") r = some (.obj [])) := by
  obtain ⟨r0, hraw, hclean⟩ : ∃ r0, create_feed_record_raw d existing = some r0 ∧
      r = clean_empty_values r0 := by
    rw [create_feed_record] at hrec
    cases h0 : create_feed_record_raw d existing with
    | none => rw [h0] at hrec; exact absurd hrec (by simp)
    | some r0 => rw [h0] at hrec; exact ⟨r0, rfl, (Option.some.inj hrec).symm⟩
  have hlicraw := jget_license_raw d existing r0 hprior hraw
  obtain ⟨gs, hgs, hnd⟩ := create_feed_record_raw_obj_nodup d existing r0 hraw
  rw [hgs] at hlicraw
  have hbl : build_license d.page_url d.licence (titleDefaulted d) =
      (if truthy d.page_url then [(S "url", d.page_url)] else []) := by
    rcases hlic with h | h
    · rw [h]; rfl
    · rw [h]; rfl
  rw [hbl] at hlicraw
  have hkey : jget (S "license") r =
      (assocFind (S "license") gs).bind
        (fun v => if isEmptyDictVal v then none else some (clean_empty_values v)) := by
    rw [hclean, hgs]
    rw [show clean_empty_values (.obj gs) = .obj (cleanObjEntries gs) from rfl]
    rw [show jget (S "license") (JVal.obj (cleanObjEntries gs)) =
      assocFind (S "license") (cleanObjEntries gs) from rfl]
    exact assocFind_cleanObjEntries gs hnd (S "license")
  rw [show jget (S "license") (JVal.obj gs) = assocFind (S "license") gs from rfl]
    at hlicraw
  refine ⟨?_, ?_, ?_⟩
  · intro u hu hne hnu
    rw [hu] at hlicraw
    have htr : truthy (.str u) = true := by
      cases u with
      | nil => exact absurd rfl hne
      | cons a t => rfl
    rw [if_pos htr] at hlicraw
    have hsv : isEmptyDictVal (JVal.str u) = false := by
      have e2 : (u == ([] : List Char)) = false := beq_eq_false_iff_ne.mpr hne
      have e5 : (u == S "unknown") = false := beq_eq_false_iff_ne.mpr hnu
      rw [show isEmptyDictVal (JVal.str u) =
        (jeq (JVal.str u) .null || jeq (JVal.str u) (.str []) ||
          jeq (JVal.str u) (.arr []) || jeq (JVal.str u) (.obj []) ||
          jeq (JVal.str u) (.str (S "unknown"))) from rfl]
      rw [show jeq (JVal.str u) .null = false from rfl]
      rw [show jeq (JVal.str u) (.str []) = (u == []) from rfl]
      rw [show jeq (JVal.str u) (.arr []) = false from rfl]
      rw [show jeq (JVal.str u) (.obj []) = false from rfl]
      rw [show jeq (JVal.str u) (.str (S "unknown")) = (u == S "unknown") from rfl]
      rw [e2, e5]
      rfl
    have hnb : isEmptyDictVal (JVal.obj [(S "url", JVal.str u)]) = false := rfl
    rw [hkey, hlicraw]
    dsimp only [Option.bind]
    rw [if_neg (by simp [hnb])]
    rw [show clean_empty_values (JVal.obj [(S "url", JVal.str u)]) =
      .obj (cleanObjEntries [(S "url", JVal.str u)]) from rfl]
    rw [show cleanObjEntries [(S "url", JVal.str u)] =
      if isEmptyDictVal (JVal.str u) then cleanObjEntries []
      else (S "url", clean_empty_values (JVal.str u)) :: cleanObjEntries [] from rfl]
    rw [if_neg (by simp [hsv])]
    rfl
  · intro htr
    rw [if_neg (by simp [htr])] at hlicraw
    rw [hkey, hlicraw]
    dsimp only [Option.bind]
    rw [if_pos (by decide)]
  · intro hu
    rw [hu] at hlicraw
    rw [if_pos (by decide)] at hlicraw
    rw [hkey, hlicraw]
    decide

/-- Witness for the amended C10 at a concrete entry with no license code
and the ordinary page url `"http://x"`. -/
theorem create_feed_record_absent_license_witness :
    jget (S "license")
      ((create_feed_record
          ⟨S "acme", .null, .null, .str (S "http://x"), none,
            [⟨S "GTFS", .str (S "u")⟩]⟩ []).getD .null) =
      some (.obj [(S "url", .str (S "http://x"))]) :=
  (create_feed_record_absent_license
      ⟨S "acme", .null, .null, .str (S "http://x"), none,
        [⟨S "GTFS", .str (S "u")⟩]⟩
      [] _ (Or.inl rfl) (fun ex hex => nomatch hex) rfl).1
    (S "http://x") rfl (by decide) (by decide)
